import Mathlib

/-!
Verification of the test-time adaptation core of this repository
(`cifar/utils/bnm_utils.py`): the `BNM` wrapper, `configure_model`,
`check_model`, `collect_params`, snapshot capture/restore and the
nuclear-norm adaptation loss.

Modelling conventions (a shallow embedding of the Python/PyTorch code):

* A parameter tensor is a `Param`: a flat list of rationals together with its
  `requires_grad` flag and its (optional) accumulated gradient, mirroring a
  torch leaf tensor.  Floating point numbers are modelled by `ℚ`.
* A model is a flat list of submodules (`Layer`), each either a
  `BatchNorm2d` (with an `affine` flag deciding whether the scale/shift
  parameters exist, a `track_running_stats` flag and optional running
  statistics buffers) or a plain module carrying its own parameters.  The
  single `training` flag models `model.train()` / `model.eval()`, which in
  torch set the flag on every submodule at once.
* Python object identity is modelled positionally: an optimizer refers to
  model parameters by their flat index in `Model.params` (registration
  order), exactly the order `model.parameters()` produces.
* The numeric kernels that the claims do not depend on are oracles collected
  in a `Backend`: the network's forward function (which receives only the
  gradient-free forward-relevant state, `Model.fwdState`), the autograd
  gradients produced by `loss.backward()`, the per-parameter Adam update
  rule (`lr`, `betas`, `weight_decay=0` from `setup_optimizer` are absorbed
  into it), the running-statistics update of a train-mode BatchNorm, and the
  transcendental functions `exp`, `sqrt` and the singular value
  decomposition used by `batch_nuclear_norm`.
* `optimizer.zero_grad()` is modelled with the torch 1.x default
  `set_to_none=False`: existing gradients are zeroed in place, absent ones
  stay absent.
* Python `assert`/`raise` are modelled by `Option`/`Except` results.
-/

namespace TTA

/-- A batch / output matrix: a list of rows of rationals. -/
abbrev Mat := List (List ℚ)

/-- A leaf tensor (parameter): values, `requires_grad`, accumulated grad. -/
structure Param where
  data : List ℚ
  requires_grad : Bool
  grad : Option (List ℚ)
deriving DecidableEq

/-- `nn.BatchNorm2d` state: affine scale/shift parameters (present iff
`affine`), the `track_running_stats` attribute and the running statistics
buffers (which `configure_model` sets to `None`). -/
structure BatchNorm2d where
  affine : Bool
  weight : Param
  bias : Param
  track_running_stats : Bool
  running_mean : Option (List ℚ)
  running_var : Option (List ℚ)
deriving DecidableEq

/-- One submodule of the model: a `BatchNorm2d` or any other module with its
parameters. -/
inductive Layer where
  | bn (b : BatchNorm2d)
  | plain (ps : List Param)
deriving DecidableEq

/-- The model: the global `training` flag plus the submodule list in
registration order (as walked by `model.modules()` / `named_parameters()`). -/
structure Model where
  training : Bool
  modules : List Layer
deriving DecidableEq

/-- Parameters owned by one submodule, in registration order (a BatchNorm2d
registers `weight` then `bias` when affine). -/
def Layer.params : Layer → List Param
  | .bn b => if b.affine then [b.weight, b.bias] else []
  | .plain ps => ps

def Layer.numParams (md : Layer) : Nat := md.params.length

def layersParams (mods : List Layer) : List Param := (mods.map Layer.params).flatten

/-- `model.parameters()`: all parameters in registration order. -/
def Model.params (m : Model) : List Param := layersParams m.modules

/-- `model.train()`. -/
def Model.train (m : Model) : Model := { m with training := true }

/-- `model.eval()`. -/
def Model.evalMode (m : Model) : Model := { m with training := false }

/-- Map a function over a parameter list, passing the flat index starting
at `k`.  Positional analogue of mutating the referenced tensors in place. -/
def mapIdxFrom (f : Nat → Param → Param) : Nat → List Param → List Param
  | _, [] => []
  | k, p :: ps => f k p :: mapIdxFrom f (k + 1) ps

/-- Apply `f` to the parameters of one submodule whose first parameter has
flat index `k`. -/
def Layer.mapParamsFrom (f : Nat → Param → Param) (k : Nat) : Layer → Layer
  | .bn b =>
      if b.affine then .bn { b with weight := f k b.weight, bias := f (k + 1) b.bias }
      else .bn b
  | .plain ps => .plain (mapIdxFrom f k ps)

def mapPGo (f : Nat → Param → Param) : Nat → List Layer → List Layer
  | _, [] => []
  | k, md :: rest => md.mapParamsFrom f k :: mapPGo f (k + md.numParams) rest

/-- Update every parameter of the model in place, `f` receiving the
parameter's flat index (its identity). -/
def Model.mapP (m : Model) (f : Nat → Param → Param) : Model :=
  { m with modules := mapPGo f 0 m.modules }

/-- Strip the autograd bookkeeping of a parameter.  The forward pass of a
network reads only tensor values, never `requires_grad` or `.grad`. -/
def Param.strip (p : Param) : Param := { data := p.data, requires_grad := false, grad := none }

def Layer.strip : Layer → Layer
  | .bn b => .bn { b with weight := b.weight.strip, bias := b.bias.strip }
  | .plain ps => .plain (ps.map Param.strip)

/-- The forward-relevant state of the model: training flag, parameter
values, BatchNorm attributes and buffers, but no gradient bookkeeping.
The `Backend` oracles receive only this. -/
def Model.fwdState (m : Model) : Model := { m with modules := m.modules.map Layer.strip }

/-- A train-mode `BatchNorm2d` that tracks running statistics updates its
buffers during the forward pass (only the present ones). -/
def BatchNorm2d.updStats (b : BatchNorm2d) (training : Bool) (s : List ℚ × List ℚ) :
    BatchNorm2d :=
  if training && b.track_running_stats then
    { b with running_mean := b.running_mean.map (fun _ => s.1),
             running_var := b.running_var.map (fun _ => s.2) }
  else b

def updStatsGo (training : Bool) (f : Nat → List ℚ × List ℚ) : Nat → List Layer → List Layer
  | _, [] => []
  | k, .bn b :: rest => .bn (b.updStats training (f k)) :: updStatsGo training f (k + 1) rest
  | k, .plain ps :: rest => .plain ps :: updStatsGo training f k rest

/-- Buffer updates performed by one forward pass; `f k` gives the new
running statistics of the `k`-th BatchNorm layer. -/
def Model.updateStats (m : Model) (f : Nat → List ℚ × List ℚ) : Model :=
  { m with modules := updStatsGo m.training f 0 m.modules }

/-- The `requires_grad` flag of the parameter with flat index `i`. -/
def rgAt (m : Model) (i : Nat) : Option Bool := (m.params[i]?).map Param.requires_grad

/-- The gradient of the parameter with flat index `i`. -/
def gradAt (m : Model) (i : Nat) : Option (List ℚ) :=
  match m.params[i]? with
  | some p => p.grad
  | none => none

/-- The values of the parameter with flat index `i`. -/
def dataAt (m : Model) (i : Nat) : Option (List ℚ) := (m.params[i]?).map Param.data

/-- One submodule's slice of `model.state_dict()`: parameter values and the
persistent buffers that are not `None` (`requires_grad`/`grad` are not part
of a state dict). -/
inductive LayerSD where
  | bn (wb : Option (List ℚ × List ℚ)) (rm rv : Option (List ℚ))
  | plain (ds : List (List ℚ))
deriving DecidableEq

abbrev ModelSD := List LayerSD

def Layer.sd : Layer → LayerSD
  | .bn b => .bn (if b.affine then some (b.weight.data, b.bias.data) else none)
        b.running_mean b.running_var
  | .plain ps => .plain (ps.map Param.data)

/-- `model.state_dict()`. -/
def Model.state_dict (m : Model) : ModelSD := m.modules.map Layer.sd

def Param.setData (p : Param) (d : List ℚ) : Param := { p with data := d }

/-- Overwrite one submodule's tensors from its state-dict slice.  With
`strict=True` torch raises on a key mismatch; all uses below load a state
dict captured from a model of identical structure, where the keys match. -/
def loadLayer : Layer → LayerSD → Layer
  | .bn b, .bn wb rm rv =>
      .bn { b with
            weight := match wb with | some w => b.weight.setData w.1 | none => b.weight,
            bias := match wb with | some w => b.bias.setData w.2 | none => b.bias,
            running_mean := rm, running_var := rv }
  | .plain ps, .plain ds => .plain (List.zipWith Param.setData ps ds)
  | md, _ => md

/-- `model.load_state_dict(sd, strict=True)`: restores values and buffers;
`requires_grad`, `.grad`, the training flag and module attributes such as
`track_running_stats` are not part of a state dict and stay untouched. -/
def Model.load_state_dict (m : Model) (sd : ModelSD) : Model :=
  { m with modules := List.zipWith loadLayer m.modules sd }

/-- The per-parameter optimizer state (`torch.optim.Adam` keeps the moment
estimates and step count per parameter, lazily initialised on the first
step; modelled as an opaque blob). -/
abbrev OptState := List (Option (List ℚ))

/-- The optimizer: the flat indices of the parameters it was constructed
over (Python identity of the tensors handed to `optim.Adam`) and its
per-parameter state, parallel to `paramIdxs`. -/
structure Optimizer where
  paramIdxs : List Nat
  state : OptState
deriving DecidableEq

/-- `setup_optimizer(params, args)`: a fresh `optim.Adam(params, lr=args.lr,
betas=(0.9, 0.999), weight_decay=0.)` with empty (lazily initialised)
state.  The hyperparameters are absorbed into the update oracle. -/
def setup_optimizer (idxs : List Nat) : Optimizer :=
  { paramIdxs := idxs, state := idxs.map (fun _ => none) }

/-- The numeric oracles: model forward, BatchNorm statistics update,
autograd gradients, the Adam per-parameter update, and the primitives of
`batch_nuclear_norm`.  All receive only the forward-relevant state. -/
structure Backend where
  fwd : Model → Mat → Mat
  bnStats : Model → Mat → Nat → List ℚ × List ℚ
  gradFn : Model → Mat → Nat → List ℚ
  upd : List ℚ → List ℚ → List ℚ → List ℚ × List ℚ
  pexp : ℚ → ℚ
  psqrt : ℚ → ℚ
  svdvals : Mat → List ℚ

/-- Autograd gradient accumulation: `p.grad` is created on first use and
added to afterwards. -/
def accumGrad : Option (List ℚ) → List ℚ → List ℚ
  | none, g => g
  | some g0, g => List.zipWith (· + ·) g0 g

/-- `loss.backward()`: every parameter with `requires_grad` accumulates the
gradient `g i`; frozen parameters are untouched (their `.grad` stays as it
was, in particular `None` stays `None`). -/
def backwardModel (g : Nat → List ℚ) (m : Model) : Model :=
  m.mapP (fun i p =>
    if p.requires_grad then { p with grad := some (accumGrad p.grad (g i)) } else p)

/-- The per-registered-parameter work of `optimizer.step()`: for each
parameter the optimizer was constructed over, skip it if its `.grad` is
`None`, otherwise compute new values and new optimizer state. -/
def stepEntries (upd : List ℚ → List ℚ → List ℚ → List ℚ × List ℚ) (m : Model)
    (o : Optimizer) : List (Nat × Option (List ℚ) × Option (List ℚ)) :=
  List.zipWith (fun i st =>
    match m.params[i]? with
    | some p =>
      match p.grad with
      | some g =>
        let r := upd p.data g (st.getD [])
        (i, some r.1, some r.2)
      | none => (i, none, st)
    | none => (i, none, st)) o.paramIdxs o.state

/-- `optimizer.step()`: writes the new values into the registered
parameters (identified by flat index) and updates the optimizer state;
parameters whose gradient is `None`, and parameters not handed to the
optimizer, are untouched. -/
def Optimizer.step (o : Optimizer) (upd : List ℚ → List ℚ → List ℚ → List ℚ × List ℚ)
    (m : Model) : Model × Optimizer :=
  let es := stepEntries upd m o
  let m' := m.mapP (fun i p =>
    match es.lookup i with
    | some r => match r.1 with | some d => p.setData d | none => p
    | none => p)
  (m', { o with state := es.map (fun e => e.2.2) })

/-- `optimizer.zero_grad()` on one parameter (torch 1.x default
`set_to_none=False`): an existing gradient is zeroed in place, an absent
one stays absent. -/
def zeroGradP (p : Param) : Param :=
  match p.grad with
  | some g => { p with grad := some (g.map (fun _ => (0 : ℚ))) }
  | none => p

/-- `optimizer.zero_grad()`: clears the gradients of the parameters the
optimizer was constructed over. -/
def zero_grad (idxs : List Nat) (m : Model) : Model :=
  m.mapP (fun i p => if i ∈ idxs then zeroGradP p else p)

/-- `torch.mean` of a vector. -/
def listMean (l : List ℚ) : ℚ := l.sum / (l.length : ℚ)

/-- `F.softmax(x, dim=1)` on a 2-D tensor: entry `(i, j)` becomes
`exp x i j / Σ k, exp x i k` (normalisation along the last dimension). -/
def softmaxDim1 (pexp : ℚ → ℚ) (x : Mat) : Mat :=
  x.map (fun r => r.map (fun v => pexp v / (r.map pexp).sum))

/-- `batch_nuclear_norm(x)`: the adaptation loss
`-torch.sqrt(torch.mean(torch.svd(F.softmax(x, dim=1))[1]**2))`. -/
def batch_nuclear_norm (pexp psqrt : ℚ → ℚ) (svdvals : Mat → List ℚ) (x : Mat) : ℚ :=
  let target_softmax := softmaxDim1 pexp x;
  -(psqrt (listMean ((svdvals target_softmax).map (fun s => s ^ 2))))

/-- `forward_and_adapt(x, model, optimizer)`: switch to train mode, forward
(updating BatchNorm buffers where tracked), compute the loss on the
outputs, backpropagate, take one optimizer step, clear the gradients, and
return the forward outputs of this call. -/
def forward_and_adapt (B : Backend) (x : Mat) (m : Model) (o : Optimizer) :
    Mat × Model × Optimizer :=
  let m1 := m.train
  let v := m1.fwdState
  let outputs := B.fwd v x
  let m2 := m1.updateStats (fun k => B.bnStats v x k)
  let _loss := batch_nuclear_norm B.pexp B.psqrt B.svdvals outputs
  let m3 := backwardModel (fun i => B.gradFn v x i) m2
  let so := Optimizer.step o B.upd m3
  let m4 := zero_grad so.2.paramIdxs so.1
  (outputs, m4, so.2)

/-- `forward_only(x, model)`: switch to eval mode and forward under
`torch.no_grad()` (no buffer updates in eval mode, no gradients written). -/
def forward_only (B : Backend) (x : Mat) (m : Model) : Mat × Model :=
  let m1 := m.evalMode
  (B.fwd m1.fwdState x, m1)

/-- The parameter handles returned by `collect_params(model, bn_only)`:
with `bn_only=True` only the affine scale/shift parameters of the
`BatchNorm2d` modules (their `named_parameters` are exactly `weight` and
`bias`), otherwise every parameter. -/
def collectBN : List Layer → List Param
  | [] => []
  | .bn b :: rest => (if b.affine then [b.weight, b.bias] else []) ++ collectBN rest
  | .plain _ :: rest => collectBN rest

def bnNamesGo : Nat → List Layer → List String
  | _, [] => []
  | i, .bn b :: rest =>
      (if b.affine then [toString i ++ ".weight", toString i ++ ".bias"] else [])
        ++ bnNamesGo (i + 1) rest
  | i, .plain _ :: rest => bnNamesGo (i + 1) rest

/-- `collect_params(model, bn_only)`: the parameters and their hierarchical
names (module names modelled by the module's position). -/
def collect_params (m : Model) (bn_only : Bool) : List Param × List String :=
  if bn_only then (collectBN m.modules, bnNamesGo 0 m.modules)
  else (m.params, (List.range m.params.length).map toString)

/-- The flat indices of the parameters `collect_params` hands to the
optimizer (Python passes the tensor objects themselves; identity is
positional here). -/
def bnIdxsGo : Nat → List Layer → List Nat
  | _, [] => []
  | k, .bn b :: rest => (if b.affine then [k, k + 1] else []) ++ bnIdxsGo (k + 2 * (if b.affine then 1 else 0)) rest
  | k, .plain ps :: rest => bnIdxsGo (k + ps.length) rest

def collectIdxs (m : Model) (bn_only : Bool) : List Nat :=
  if bn_only then bnIdxsGo 0 m.modules else List.range m.params.length

/-- `copy_model_and_optimizer(model, optimizer)`: deep copies of
`model.state_dict()` and `optimizer.state_dict()`.  In this pure embedding
the returned values are independent of later mutation by construction. -/
def copy_model_and_optimizer (m : Model) (o : Optimizer) : ModelSD × OptState :=
  (m.state_dict, o.state)

/-- `load_model_and_optimizer(model, optimizer, model_state,
optimizer_state)`: restore both from the copies. -/
def load_model_and_optimizer (m : Model) (o : Optimizer) (msd : ModelSD) (osd : OptState) :
    Model × Optimizer :=
  (m.load_state_dict msd, { o with state := osd })

def Param.setRG (p : Param) (v : Bool) : Param := { p with requires_grad := v }

/-- `model.requires_grad_(False)` restricted to one submodule. -/
def Layer.freezeM : Layer → Layer
  | .bn b => .bn { b with weight := b.weight.setRG false, bias := b.bias.setRG false }
  | .plain ps => .plain (ps.map (fun p => p.setRG false))

/-- The per-BatchNorm2d part of `configure_model`: `m.requires_grad_(True)`
(its parameters are exactly the affine scale and shift),
`m.track_running_stats = False`, `m.running_mean = None`,
`m.running_var = None`. -/
def BatchNorm2d.bnmConfigure (b : BatchNorm2d) : BatchNorm2d :=
  { b with weight := b.weight.setRG true, bias := b.bias.setRG true,
           track_running_stats := false, running_mean := none, running_var := none }

def Layer.bnmConfigureM : Layer → Layer
  | .bn b => .bn b.bnmConfigure
  | md => md

/-- `configure_model(model)`: `model.train()`, freeze every parameter, then
re-enable gradients and force batch statistics on every `BatchNorm2d`. -/
def configure_model (m : Model) : Model :=
  let m1 := { m with training := true }
  let m2 := { m1 with modules := m1.modules.map Layer.freezeM }
  { m2 with modules := m2.modules.map Layer.bnmConfigureM }

def Layer.isBN : Layer → Bool
  | .bn _ => true
  | .plain _ => false

/-- `check_model(model)`: the compatibility asserts, in source order.
The Python asserts read the model and raise; they never mutate it, so the
embedding is a pure function of the model. -/
def check_model (m : Model) : Except String Unit :=
  let is_training := m.training
  if !is_training then Except.error "BNM needs train mode: call model.train()" else
  let param_grads := m.params.map Param.requires_grad
  let has_any_params := param_grads.any (fun b => b)
  let has_all_params := param_grads.all (fun b => b)
  if !has_any_params then Except.error "BNM needs params to update: check which require grad" else
  if has_all_params then Except.error "BNM should not update all params: check which require grad" else
  let has_bn := m.modules.any Layer.isBN
  if !has_bn then Except.error "BNM needs normalization for its optimization" else
  Except.ok ()

/-- The `BNM` wrapper object: wrapped model, bound optimizer, step count,
episodic flag, and the snapshot captured at construction.  The snapshot
fields are `Option`s because `reset` explicitly checks them against
`None`. -/
structure BNM where
  model : Model
  optimizer : Optimizer
  steps : Nat
  episodic : Bool
  model_state : Option ModelSD
  optimizer_state : Option OptState
deriving DecidableEq

/-- `BNM.__init__`: asserts `steps > 0`, then unconditionally captures the
model/optimizer snapshot. -/
def BNM.init (model : Model) (optimizer : Optimizer) (steps : Nat) (episodic : Bool) :
    Option BNM :=
  if steps > 0 then
    some { model := model, optimizer := optimizer, steps := steps, episodic := episodic,
           model_state := some (copy_model_and_optimizer model optimizer).1,
           optimizer_state := some (copy_model_and_optimizer model optimizer).2 }
  else none

/-- `BNM.reset`: raise when a snapshot component is `None`, otherwise
restore model and optimizer from the snapshot. -/
def BNM.reset (b : BNM) : Except String BNM :=
  match b.model_state, b.optimizer_state with
  | some ms, some os =>
      let r := load_model_and_optimizer b.model b.optimizer ms os
      Except.ok { b with model := r.1, optimizer := r.2 }
  | _, _ => Except.error "cannot reset without saved model/optimizer state"

/-- The model/optimizer effect of one `forward_and_adapt` call (whose
returned outputs the wrapper's loop discards). -/
def adaptPair (B : Backend) (x : Mat) (mo : Model × Optimizer) : Model × Optimizer :=
  (forward_and_adapt B x mo.1 mo.2).2

/-- The wrapper's adaptation loop, `for _ in range(steps):
forward_and_adapt(x, self.model, self.optimizer)`. -/
def adaptLoop (B : Backend) (x : Mat) (steps : Nat) (m : Model) (o : Optimizer) :
    Model × Optimizer :=
  (List.range steps).foldl (fun mo _ => adaptPair B x mo) (m, o)

/-- `BNM.forward(x)`: reset first when episodic, run the adaptation loop,
and return the outputs of one extra eval-mode, no-grad forward pass. -/
def BNM.forward (B : Backend) (b : BNM) (x : Mat) : Except String (Mat × BNM) :=
  match (if b.episodic then b.reset else Except.ok b) with
  | .error e => .error e
  | .ok b1 =>
    let mo := adaptLoop B x b1.steps b1.model b1.optimizer
    let r := forward_only B x mo.1
    Except.ok (r.1, { b1 with model := r.2, optimizer := mo.2 })

/-- `setup_bnm(model, args)`: configure the model, collect the parameters
with `bn_only=False` (all of them), build the optimizer over them, and wrap
with `steps=1, episodic=False`. -/
def setup_bnm (model : Model) : Option BNM :=
  let m := configure_model model
  let optimizer := setup_optimizer (collectIdxs m false)
  BNM.init m optimizer 1 false

/-- A sequence of in-place adaptation steps on arbitrary batches (the
"arbitrary intervening adaptation" between snapshot capture and restore). -/
def adaptMany (B : Backend) (xs : List Mat) (mo : Model × Optimizer) : Model × Optimizer :=
  xs.foldl (fun mo x => adaptPair B x mo) mo

/-- `n + 1` consecutive `BNM.forward` calls on the same batch, returning the
last call's outputs and wrapper state. -/
def BNM.forwardN (B : Backend) (x : Mat) (b : BNM) : Nat → Except String (Mat × BNM)
  | 0 => BNM.forward B b x
  | n + 1 =>
    match BNM.forwardN B x b n with
    | .ok p => BNM.forward B p.2 x
    | .error e => .error e

/-- The outputs of an inference call, `none` when it raised. -/
def outOf : Except String (Mat × BNM) → Option Mat
  | .ok p => some p.1
  | .error _ => none

/-! ### Spec-side definitions

Written from the specification's words, to be compared with the embedded
source functions. -/

/-- Spec: softmax of one example's class-score row. -/
def softmaxRow (pexp : ℚ → ℚ) (r : List ℚ) : List ℚ :=
  let e := r.map pexp
  e.map (fun v => v / e.sum)

/-- Spec: "negative square root of the mean of squared singular values of
the softmax-normalized output matrix", softmax applied per example
(row-wise) over class scores. -/
def specNuclearLoss (pexp psqrt : ℚ → ℚ) (svdvals : Mat → List ℚ) (x : Mat) : ℚ :=
  let sm := x.map (softmaxRow pexp);
  -(psqrt (listMean ((svdvals sm).map (fun s => s * s))))

/-- Spec: the configured state of one submodule — exactly the
normalization-layer scale/shift parameters trainable, no others, running
statistics tracking disabled, running mean/variance null. -/
def Layer.bnmConfigured : Layer → Bool
  | .bn b =>
      (!b.affine || (b.weight.requires_grad && b.bias.requires_grad))
        && !b.track_running_stats && b.running_mean.isNone && b.running_var.isNone
  | .plain ps => ps.all (fun p => !p.requires_grad)

/-- Spec: "at least one parameter is trainable". -/
def Model.hasAnyTrainable (m : Model) : Bool := m.params.any (fun p => p.requires_grad)

/-- Spec: "all parameters are trainable". -/
def Model.allTrainable (m : Model) : Bool := m.params.all (fun p => p.requires_grad)

/-- Spec: "the model contains at least one normalization layer". -/
def Model.hasBN (m : Model) : Bool := m.modules.any Layer.isBN

/-- A cleared gradient slot: absent, or zeroed in place. -/
def gradClearedB (g : Option (List ℚ)) : Bool :=
  match g with
  | none => true
  | some l => l.all (fun q => q == 0)

/-- The empty parameter skeleton. -/
def Param.skel0 : Param := { data := [], requires_grad := false, grad := none }

/-- The structural skeleton of a submodule: module kind, `affine` flag and
parameter count — everything `load_state_dict` needs for its keys to match,
with all values erased. -/
def Layer.skel : Layer → Layer
  | .bn b => .bn { affine := b.affine, weight := Param.skel0, bias := Param.skel0,
                   track_running_stats := false, running_mean := none, running_var := none }
  | .plain ps => .plain (ps.map (fun _ => Param.skel0))

def Model.skel (m : Model) : Model := { training := true, modules := m.modules.map Layer.skel }

/-- The static attributes of a submodule: what survives a
`load_state_dict` untouched and influences the forward pass — module kind,
`affine`, `track_running_stats`, parameter counts, and the values of
parameters that are not in the state dict (non-affine placeholders). -/
def Layer.attrsM : Layer → Layer
  | .bn b => .bn { affine := b.affine,
                   weight := if b.affine then Param.skel0 else b.weight.strip,
                   bias := if b.affine then Param.skel0 else b.bias.strip,
                   track_running_stats := b.track_running_stats,
                   running_mean := none, running_var := none }
  | .plain ps => .plain (ps.map (fun _ => Param.skel0))

def Model.attrsOf (m : Model) : Model := { training := true, modules := m.modules.map Layer.attrsM }

/-- The gradient slots an episodic wrapper's model can hold at call
boundaries: a trainable registered parameter's gradient is either still
unset or zeroed in place (with the shape of the autograd gradient); any
other registered parameter's gradient is unset. -/
def GradOK (rg : Option Bool) (n : Nat) (g : Option (List ℚ)) : Prop :=
  match rg with
  | some true => g = none ∨ g = some (List.replicate n 0)
  | _ => g = none

/-- Two gradient slots that `loss.backward()` followed by
`optimizer.step()` cannot distinguish, given the fresh gradient both will
accumulate. -/
def GradMatch (fresh : List ℚ) (rg : Option Bool) (g₁ g₂ : Option (List ℚ)) : Prop :=
  match rg with
  | some true => accumGrad g₁ fresh = accumGrad g₂ fresh
  | _ => g₁ = g₂

/-- The state a wrapper constructed episodic over `(m, o)` keeps forever:
fixed step count, episodic flag, snapshot, optimizer binding, model
attributes and `requires_grad` assignment, and call-boundary gradients. -/
def EpisodicInv (B : Backend) (x : Mat) (m : Model) (o : Optimizer) (steps : Nat)
    (b' : BNM) : Prop :=
  b'.steps = steps ∧ b'.episodic = true
  ∧ b'.model_state = some m.state_dict ∧ b'.optimizer_state = some o.state
  ∧ b'.optimizer.paramIdxs = o.paramIdxs
  ∧ Model.attrsOf b'.model = Model.attrsOf m
  ∧ (∀ i, rgAt b'.model i = rgAt m i)
  ∧ (∀ i ∈ o.paramIdxs,
      GradOK (rgAt m i) ((B.gradFn m.train.fwdState x i).length) (gradAt b'.model i))

/-! ### Concrete instances used by witnesses and counterexamples -/

/-- A tiny compatible model: one plain parameter (frozen) and one affine
BatchNorm2d, all gradients unset. -/
def pPlain : Param := { data := [5], requires_grad := false, grad := none }

def pW : Param := { data := [1], requires_grad := true, grad := none }

def pB : Param := { data := [0], requires_grad := true, grad := none }

def bn0 : BatchNorm2d :=
  { affine := true, weight := pW, bias := pB, track_running_stats := true,
    running_mean := some [0], running_var := some [1] }

def mWit : Model := { training := true, modules := [.plain [pPlain], .bn bn0] }

def oWit : Optimizer := setup_optimizer [1, 2]

def bWit : BNM :=
  { model := mWit, optimizer := oWit, steps := 1, episodic := false,
    model_state := some mWit.state_dict, optimizer_state := some oWit.state }

/-- A trivial concrete backend. -/
def BWit : Backend :=
  { fwd := fun v _ => v.params.map Param.data,
    bnStats := fun _ _ _ => ([0], [1]),
    gradFn := fun _ _ _ => [10],
    upd := fun d g _ => (List.zipWith (· + ·) d g, [1]),
    pexp := id, psqrt := id, svdvals := fun _ => [] }

/-- A model whose single registered, trainable parameter carries a residual
gradient at wrapper construction time. -/
def pDirty : Param := { data := [0], requires_grad := true, grad := some [1] }

def mDirty : Model := { training := true, modules := [.plain [pDirty]] }

def oDirty : Optimizer := setup_optimizer [0]

def bDirty : BNM :=
  { model := mDirty, optimizer := oDirty, steps := 1, episodic := true,
    model_state := some mDirty.state_dict, optimizer_state := some oDirty.state }

/-- The same one-parameter model with the residual gradient cleared. -/
def pClean : Param := { data := [0], requires_grad := true, grad := none }

def mClean : Model := { training := true, modules := [.plain [pClean]] }

def bClean : BNM :=
  { model := mClean, optimizer := oDirty, steps := 1, episodic := true,
    model_state := some mClean.state_dict, optimizer_state := some oDirty.state }

/-! ### Infrastructure lemmas -/

theorem getElem?_mapIdxFrom (f : Nat → Param → Param) (k : Nat) (l : List Param) (i : Nat) :
    (mapIdxFrom f k l)[i]? = (l[i]?).map (f (k + i)) := by
  induction l generalizing k i with
  | nil => simp [mapIdxFrom]
  | cons p ps ih =>
    cases i with
    | zero => simp [mapIdxFrom]
    | succ n =>
      simp only [mapIdxFrom, List.getElem?_cons_succ, ih]
      have h : k + 1 + n = k + (n + 1) := by omega
      rw [h]

theorem length_mapIdxFrom (f : Nat → Param → Param) (k : Nat) (l : List Param) :
    (mapIdxFrom f k l).length = l.length := by
  induction l generalizing k with
  | nil => rfl
  | cons p ps ih => simp [mapIdxFrom, ih]

theorem mapIdxFrom_append (f : Nat → Param → Param) (k : Nat) (l₁ l₂ : List Param) :
    mapIdxFrom f k (l₁ ++ l₂) = mapIdxFrom f k l₁ ++ mapIdxFrom f (k + l₁.length) l₂ := by
  induction l₁ generalizing k with
  | nil => simp [mapIdxFrom]
  | cons p ps ih => simp [mapIdxFrom, ih]; ring_nf

theorem params_mapParamsFrom (f : Nat → Param → Param) (k : Nat) (md : Layer) :
    (md.mapParamsFrom f k).params = mapIdxFrom f k md.params := by
  cases md with
  | bn b =>
    by_cases h : b.affine <;>
      simp [Layer.mapParamsFrom, Layer.params, h, mapIdxFrom]
  | plain ps => rfl

theorem numParams_mapParamsFrom (f : Nat → Param → Param) (k : Nat) (md : Layer) :
    (md.mapParamsFrom f k).numParams = md.numParams := by
  simp [Layer.numParams, params_mapParamsFrom, length_mapIdxFrom]

theorem layersParams_cons (md : Layer) (mods : List Layer) :
    layersParams (md :: mods) = md.params ++ layersParams mods := by
  simp [layersParams]

theorem layersParams_mapPGo (f : Nat → Param → Param) (k : Nat) (mods : List Layer) :
    layersParams (mapPGo f k mods) = mapIdxFrom f k (layersParams mods) := by
  induction mods generalizing k with
  | nil => simp [mapPGo, layersParams, mapIdxFrom]
  | cons md rest ih =>
    simp only [mapPGo, layersParams_cons, params_mapParamsFrom, ih, mapIdxFrom_append]
    rfl

theorem params_mapP (m : Model) (f : Nat → Param → Param) :
    (m.mapP f).params = mapIdxFrom f 0 m.params := by
  simp [Model.mapP, Model.params, layersParams_mapPGo]

theorem getElem?_params_mapP (m : Model) (f : Nat → Param → Param) (i : Nat) :
    (m.mapP f).params[i]? = (m.params[i]?).map (f i) := by
  simp [params_mapP, getElem?_mapIdxFrom]

theorem params_updStatsGo (t : Bool) (f : Nat → List ℚ × List ℚ) (k : Nat)
    (mods : List Layer) :
    layersParams (updStatsGo t f k mods) = layersParams mods := by
  induction mods generalizing k with
  | nil => rfl
  | cons md rest ih =>
    cases md with
    | bn b =>
      simp only [updStatsGo, layersParams_cons, ih]
      congr 1
      simp [Layer.params, BatchNorm2d.updStats]
      split <;> rfl
    | plain ps => simp only [updStatsGo, layersParams_cons, ih]

theorem params_updateStats (m : Model) (f : Nat → List ℚ × List ℚ) :
    (m.updateStats f).params = m.params := by
  simp [Model.updateStats, Model.params, params_updStatsGo]

theorem params_train (m : Model) : m.train.params = m.params := rfl

theorem params_evalMode (m : Model) : m.evalMode.params = m.params := rfl

theorem params_fwdState (m : Model) : m.fwdState.params = m.params.map Param.strip := by
  simp only [Model.fwdState, Model.params, layersParams]
  induction m.modules with
  | nil => rfl
  | cons md rest ih =>
    simp only [List.map_cons, List.flatten_cons, List.map_append, ih]
    congr 1
    cases md with
    | bn b =>
      by_cases h : b.affine <;> simp [Layer.strip, Layer.params, h]
    | plain ps => rfl

theorem gradAt_mapP (m : Model) (f : Nat → Param → Param) (i : Nat) :
    gradAt (m.mapP f) i =
      (match m.params[i]? with
       | some p => (f i p).grad
       | none => none) := by
  unfold gradAt
  rw [getElem?_params_mapP]
  cases m.params[i]? <;> rfl

theorem rgAt_mapP (m : Model) (f : Nat → Param → Param) (i : Nat) :
    rgAt (m.mapP f) i = (m.params[i]?).map (fun p => (f i p).requires_grad) := by
  unfold rgAt
  rw [getElem?_params_mapP]
  cases m.params[i]? <;> rfl

theorem dataAt_mapP (m : Model) (f : Nat → Param → Param) (i : Nat) :
    dataAt (m.mapP f) i = (m.params[i]?).map (fun p => (f i p).data) := by
  unfold dataAt
  rw [getElem?_params_mapP]
  cases m.params[i]? <;> rfl

theorem setRG_setRG (p : Param) (a b : Bool) : (p.setRG a).setRG b = p.setRG b := rfl

/-- `F.softmax(x, dim=1)` on a batch-by-class matrix is the row-wise
softmax applied to each example's scores. -/
theorem softmaxDim1_eq_rowwise (pexp : ℚ → ℚ) (x : Mat) :
    softmaxDim1 pexp x = x.map (softmaxRow pexp) := by
  unfold softmaxDim1 softmaxRow
  refine List.map_congr_left (fun r _ => ?_)
  rw [List.map_map]
  rfl

theorem layer_configure_idem (md : Layer) :
    (md.freezeM.bnmConfigureM).freezeM.bnmConfigureM = md.freezeM.bnmConfigureM := by
  cases md with
  | bn b =>
    simp [Layer.freezeM, Layer.bnmConfigureM, BatchNorm2d.bnmConfigure, Param.setRG]
  | plain ps =>
    simp [Layer.freezeM, Layer.bnmConfigureM, List.map_map, Function.comp, Param.setRG]

theorem layer_configured (md : Layer) :
    (md.freezeM.bnmConfigureM).bnmConfigured = true := by
  cases md with
  | bn b =>
    simp [Layer.freezeM, Layer.bnmConfigureM, BatchNorm2d.bnmConfigure,
      Layer.bnmConfigured, Param.setRG]
  | plain ps =>
    simp [Layer.freezeM, Layer.bnmConfigureM, Layer.bnmConfigured, Param.setRG]

theorem filter_rg_collectBN (mods : List Layer)
    (h : ∀ md ∈ mods, md.bnmConfigured = true) :
    (layersParams mods).filter Param.requires_grad = collectBN mods := by
  induction mods with
  | nil => rfl
  | cons md rest ih =>
    have hmd := h md (List.mem_cons_self md rest)
    have hrest := ih (fun x hx => h x (List.mem_cons_of_mem md hx))
    rw [layersParams_cons, List.filter_append, hrest]
    cases md with
    | bn b =>
      by_cases ha : b.affine
      · simp only [Layer.bnmConfigured, ha, Bool.not_true, Bool.false_or,
          Bool.and_eq_true] at hmd
        simp [Layer.params, collectBN, ha, List.filter, hmd.1.1, hmd.1.2]
      · simp [Layer.params, collectBN, ha]
    | plain ps =>
      simp only [Layer.bnmConfigured, List.all_eq_true] at hmd
      simp only [Layer.params, collectBN]
      have hnil : List.filter Param.requires_grad ps = [] :=
        List.filter_eq_nil_iff.mpr (fun p hp => by simpa using hmd p hp)
      simp [hnil]

/-! ### Claim theorems -/

/-- C1: after `configure_model` returns, exactly the BatchNorm2d scale and
shift parameters have gradients enabled and no other parameter does, and
every normalization layer has running-statistics tracking disabled with
null running mean/variance; the trainable parameters are exactly the ones
`collect_params(model, bn_only=True)` enumerates. -/
theorem configure_model_trainable_spec (m : Model) :
    ((configure_model m).modules.all Layer.bnmConfigured) = true
    ∧ (configure_model m).params.filter Param.requires_grad
        = (collect_params (configure_model m) true).1 := by
  have hall : ∀ md ∈ (configure_model m).modules, md.bnmConfigured = true := by
    intro md hmd
    simp only [configure_model, List.map_map, List.mem_map] at hmd
    obtain ⟨md0, _, rfl⟩ := hmd
    exact layer_configured md0
  refine ⟨List.all_eq_true.mpr hall, ?_⟩
  have h := filter_rg_collectBN (configure_model m).modules hall
  simpa [collect_params, Model.params] using h

/-- C3: the adaptation loss `batch_nuclear_norm(x)` equals the negated
square root of the mean of the squared singular values of the row-wise
(per example, over class scores) softmax of `x`. -/
theorem batch_nuclear_norm_spec (pexp psqrt : ℚ → ℚ) (svdvals : Mat → List ℚ) (x : Mat) :
    batch_nuclear_norm pexp psqrt svdvals x = specNuclearLoss pexp psqrt svdvals x := by
  unfold batch_nuclear_norm specNuclearLoss
  rw [softmaxDim1_eq_rowwise]
  simp only [pow_two]

/-- C6: `check_model` succeeds exactly when the model is in training mode,
some parameter is trainable, not all parameters are trainable and the model
contains a BatchNorm2d; each violated precondition (checked in source
order) produces its own descriptive error.  The embedding is a pure
function of the model: the Python asserts never mutate it. -/
theorem check_model_spec (m : Model) :
    ((check_model m = Except.ok ()) ↔
      (m.training = true ∧ m.hasAnyTrainable = true ∧ m.allTrainable = false
        ∧ m.hasBN = true))
    ∧ (m.training = false →
        check_model m = Except.error "BNM needs train mode: call model.train()")
    ∧ (m.training = true → m.hasAnyTrainable = false →
        check_model m = Except.error "BNM needs params to update: check which require grad")
    ∧ (m.training = true → m.hasAnyTrainable = true → m.allTrainable = true →
        check_model m = Except.error "BNM should not update all params: check which require grad")
    ∧ (m.training = true → m.hasAnyTrainable = true → m.allTrainable = false →
        m.hasBN = false →
        check_model m = Except.error "BNM needs normalization for its optimization") := by
  simp only [check_model, Model.hasAnyTrainable, Model.allTrainable, Model.hasBN,
    List.any_map, List.all_map, Function.comp_def]
  split_ifs with h1 h2 h3 h4 <;> simp_all <;>
    exact h2.imp (fun x hx => hx.1)

/-- C6 witness: a concrete compatible model passes `check_model`. -/
theorem check_model_spec_witness : check_model mWit = Except.ok () :=
  (check_model_spec mWit).1.mpr (by decide)

/-- C8: `forward_and_adapt` returns the outputs of the forward pass the
loss was computed on — the pass performed on the pre-update parameters in
train mode — and after the optimizer step the gradients of every parameter
the optimizer owns are cleared. -/
theorem forward_and_adapt_returns_preupdate (B : Backend) (x : Mat) (m : Model)
    (o : Optimizer) :
    (forward_and_adapt B x m o).1 = B.fwd m.train.fwdState x
    ∧ (o.paramIdxs.all
        (fun i => gradClearedB (gradAt (forward_and_adapt B x m o).2.1 i))) = true := by
  refine ⟨rfl, List.all_eq_true.mpr (fun i hi => ?_)⟩
  show gradClearedB
    (gradAt (zero_grad o.paramIdxs
      (Optimizer.step o B.upd (backwardModel (fun j => B.gradFn m.train.fwdState x j)
        (m.train.updateStats (fun k => B.bnStats m.train.fwdState x k)))).1) i) = true
  unfold zero_grad
  rw [gradAt_mapP]
  cases h : (Optimizer.step o B.upd (backwardModel (fun j => B.gradFn m.train.fwdState x j)
      (m.train.updateStats (fun k => B.bnStats m.train.fwdState x k)))).1.params[i]? with
  | none => rfl
  | some p =>
    simp only [if_pos hi]
    cases hg : p.grad with
    | none => simp [zeroGradP, hg, gradClearedB]
    | some g => simp [zeroGradP, hg, gradClearedB, List.all_map]

/-- C9: `configure_model` is idempotent — a second application leaves the
model (in particular its trainable-parameter set and the normalization
statistics mode) exactly as the first one did. -/
theorem configure_model_idempotent (m : Model) :
    configure_model (configure_model m) = configure_model m := by
  simp only [configure_model, List.map_map]
  congr 1
  exact List.map_congr_left (fun md _ => layer_configure_idem md)

/-- C10: `BNM.__init__` unconditionally captures the snapshot after its
`steps > 0` assert, so on every constructed wrapper — also after any
successful `forward` — the missing-snapshot error branch of `reset` is
unreachable. -/
theorem reset_never_fails_after_init (m : Model) (o : Optimizer) (steps : Nat) (ep : Bool)
    (b : BNM) (h : BNM.init m o steps ep = some b) :
    b.model_state = some m.state_dict ∧ b.optimizer_state = some o.state
    ∧ (∃ b', b.reset = Except.ok b')
    ∧ ∀ (B : Backend) (x : Mat) (p : Mat × BNM), BNM.forward B b x = Except.ok p →
        p.2.model_state = b.model_state ∧ p.2.optimizer_state = b.optimizer_state
        ∧ ∃ b'', p.2.reset = Except.ok b'' := by
  unfold BNM.init at h
  by_cases hs : steps > 0
  · rw [if_pos hs] at h
    injection h with h
    subst h
    refine ⟨rfl, rfl, ⟨_, rfl⟩, ?_⟩
    intro B x p hp
    cases ep <;>
      · injection hp with hp
        subst hp
        exact ⟨rfl, rfl, _, rfl⟩
  · rw [if_neg hs] at h
    exact absurd h (by simp)

/-- C10 witness: the concrete wrapper returned by `BNM.__init__` resets
without raising. -/
theorem reset_never_fails_after_init_witness : ∃ b', bWit.reset = Except.ok b' :=
  (reset_never_fails_after_init mWit oWit 1 false bWit rfl).2.2.1

theorem foldl_range_const {α : Type} (g : α → α) (a : α) (n : Nat) :
    (List.range n).foldl (fun acc _ => g acc) a = g^[n] a := by
  induction n with
  | zero => rfl
  | succ k ih =>
    rw [List.range_succ, List.foldl_append, ih, Function.iterate_succ_apply']
    rfl

theorem adaptLoop_eq_iterate (B : Backend) (x : Mat) (n : Nat) (m : Model) (o : Optimizer) :
    adaptLoop B x n m o = (adaptPair B x)^[n] (m, o) :=
  foldl_range_const (adaptPair B x) (m, o) n

/-- C2: each `BNM.forward(x)` call first restores the snapshot when
episodic (propagating the reset error otherwise), then iterates the
adaptation step exactly `steps` times sequentially on the same batch `x`,
and returns the output of one additional forward pass of the adapted model
in evaluation mode on its gradient-free state — not the output of any
adaptation-step forward pass. -/
theorem bnm_forward_spec (B : Backend) (b : BNM) (x : Mat) :
    BNM.forward B b x =
      match (if b.episodic then b.reset else Except.ok b) with
      | .error e => .error e
      | .ok b1 =>
          Except.ok
            (B.fwd ((adaptPair B x)^[b1.steps] (b1.model, b1.optimizer)).1.evalMode.fwdState x,
             { b1 with
               model := ((adaptPair B x)^[b1.steps] (b1.model, b1.optimizer)).1.evalMode,
               optimizer := ((adaptPair B x)^[b1.steps] (b1.model, b1.optimizer)).2 }) := by
  unfold BNM.forward
  cases hres : (if b.episodic then b.reset else Except.ok b) with
  | error e => rfl
  | ok b1 => simp only [adaptLoop_eq_iterate, forward_only]

/-! ### Structural skeleton preservation (snapshot round-trip) -/

theorem map_const_of_length {α : Type} (c : Param) (l₁ l₂ : List α)
    (h : l₁.length = l₂.length) :
    l₁.map (fun _ => c) = l₂.map (fun _ => c) := by
  induction l₁ generalizing l₂ with
  | nil => cases l₂ with | nil => rfl | cons => simp at h
  | cons a t ih =>
    cases l₂ with
    | nil => simp at h
    | cons b t₂ => simp only [List.map_cons]; rw [ih t₂ (by simpa using h)]

theorem skel_mapParamsFrom (f : Nat → Param → Param) (k : Nat) (md : Layer) :
    (md.mapParamsFrom f k).skel = md.skel := by
  cases md with
  | bn b => by_cases h : b.affine <;> simp [Layer.mapParamsFrom, Layer.skel, h]
  | plain ps =>
    simp only [Layer.mapParamsFrom, Layer.skel, Layer.plain.injEq]
    exact map_const_of_length _ _ _ (length_mapIdxFrom f k ps)

theorem skel_mapPGo (f : Nat → Param → Param) (k : Nat) (mods : List Layer) :
    (mapPGo f k mods).map Layer.skel = mods.map Layer.skel := by
  induction mods generalizing k with
  | nil => rfl
  | cons md rest ih => simp [mapPGo, skel_mapParamsFrom, ih]

theorem skel_mapP (m : Model) (f : Nat → Param → Param) : (m.mapP f).skel = m.skel := by
  simp [Model.skel, Model.mapP, skel_mapPGo]

theorem skel_updStatsGo (t : Bool) (f : Nat → List ℚ × List ℚ) (k : Nat) (mods : List Layer) :
    (updStatsGo t f k mods).map Layer.skel = mods.map Layer.skel := by
  induction mods generalizing k with
  | nil => rfl
  | cons md rest ih =>
    cases md with
    | bn b =>
      simp only [updStatsGo, List.map_cons, ih]
      congr 1
      simp only [BatchNorm2d.updStats]
      split <;> rfl
    | plain ps => simp only [updStatsGo, List.map_cons, ih]

theorem skel_updateStats (m : Model) (f : Nat → List ℚ × List ℚ) :
    (m.updateStats f).skel = m.skel := by
  simp [Model.skel, Model.updateStats, skel_updStatsGo]

theorem skel_train (m : Model) : m.train.skel = m.skel := rfl

theorem skel_evalMode (m : Model) : m.evalMode.skel = m.skel := rfl

theorem skel_forward_and_adapt (B : Backend) (x : Mat) (m : Model) (o : Optimizer) :
    (forward_and_adapt B x m o).2.1.skel = m.skel := by
  show ((zero_grad _ _)).skel = m.skel
  unfold zero_grad
  rw [skel_mapP]
  show ((Model.mapP _ _)).skel = m.skel
  rw [skel_mapP]
  unfold backwardModel
  rw [skel_mapP, skel_updateStats, skel_train]

theorem skel_adaptMany (B : Backend) (xs : List Mat) (mo : Model × Optimizer) :
    (adaptMany B xs mo).1.skel = mo.1.skel := by
  induction xs generalizing mo with
  | nil => rfl
  | cons x xs ih =>
    show (adaptMany B xs (adaptPair B x mo)).1.skel = mo.1.skel
    rw [ih]
    exact skel_forward_and_adapt B x mo.1 mo.2

theorem zipWith_setData_map_data (ps : List Param) (ds : List (List ℚ))
    (h : ps.length = ds.length) :
    (List.zipWith Param.setData ps ds).map Param.data = ds := by
  induction ps generalizing ds with
  | nil => cases ds with | nil => rfl | cons => simp at h
  | cons p pt ih =>
    cases ds with
    | nil => simp at h
    | cons d dt =>
      simp only [List.zipWith_cons_cons, List.map_cons, Param.setData]
      rw [ih dt (by simpa using h)]

theorem loadLayer_sd (md' md : Layer) (h : md'.skel = md.skel) :
    (loadLayer md' md.sd).sd = md.sd := by
  cases md' with
  | bn b' =>
    cases md with
    | bn b =>
      simp only [Layer.skel, Layer.bn.injEq, BatchNorm2d.mk.injEq] at h
      obtain ⟨ha, -⟩ := h
      by_cases haf : b.affine
      · simp [Layer.sd, loadLayer, haf, ha, Param.setData]
      · simp [Layer.sd, loadLayer, haf, ha]
    | plain ps => simp [Layer.skel] at h
  | plain ps' =>
    cases md with
    | bn b => simp [Layer.skel] at h
    | plain ps =>
      simp only [Layer.skel, Layer.plain.injEq] at h
      have hlen : ps'.length = ps.length := by
        have := congrArg List.length h
        simpa using this
      simp only [Layer.sd, loadLayer]
      exact congrArg LayerSD.plain
        (zipWith_setData_map_data ps' (ps.map Param.data) (by simpa using hlen))

theorem zip_load_sd (l' l : List Layer) (h : l'.map Layer.skel = l.map Layer.skel) :
    (List.zipWith loadLayer l' (l.map Layer.sd)).map Layer.sd = l.map Layer.sd := by
  induction l' generalizing l with
  | nil => cases l with | nil => rfl | cons => simp at h
  | cons a' t' ih =>
    cases l with
    | nil => simp at h
    | cons a t =>
      simp only [List.map_cons, List.cons.injEq] at h
      simp only [List.map_cons, List.zipWith_cons_cons, List.cons.injEq]
      exact ⟨loadLayer_sd a' a h.1, ih t h.2⟩

theorem load_state_dict_roundtrip (m' m : Model) (h : m'.skel = m.skel) :
    (m'.load_state_dict m.state_dict).state_dict = m.state_dict := by
  have hmods : m'.modules.map Layer.skel = m.modules.map Layer.skel := by
    simpa [Model.skel, Model.mk.injEq] using h
  simpa [Model.load_state_dict, Model.state_dict] using zip_load_sd m'.modules m.modules hmods

/-- C4: after arbitrarily many in-place adaptation steps, restoring the
snapshot captured by `copy_model_and_optimizer` via
`load_model_and_optimizer` leaves the model's parameters and buffers and
the optimizer's state numerically identical to capture time. -/
theorem snapshot_roundtrip (B : Backend) (xs : List Mat) (m : Model) (o : Optimizer) :
    (load_model_and_optimizer (adaptMany B xs (m, o)).1 (adaptMany B xs (m, o)).2
        (copy_model_and_optimizer m o).1 (copy_model_and_optimizer m o).2).1.state_dict
      = m.state_dict
    ∧ (load_model_and_optimizer (adaptMany B xs (m, o)).1 (adaptMany B xs (m, o)).2
        (copy_model_and_optimizer m o).1 (copy_model_and_optimizer m o).2).2.state
      = o.state := by
  refine ⟨?_, rfl⟩
  exact load_state_dict_roundtrip _ m (skel_adaptMany B xs (m, o))

/-! ### Frame lemmas: what one adaptation step can and cannot touch -/

theorem rgAt_mapP_of_pres (m : Model) (f : Nat → Param → Param) (j : Nat)
    (hf : ∀ i p, (f i p).requires_grad = p.requires_grad) :
    rgAt (m.mapP f) j = rgAt m j := by
  rw [rgAt_mapP]
  unfold rgAt
  cases m.params[j]? with
  | none => rfl
  | some p => simp [hf]

theorem dataAt_mapP_of_pres (m : Model) (f : Nat → Param → Param) (j : Nat)
    (hf : ∀ i p, (f i p).data = p.data) :
    dataAt (m.mapP f) j = dataAt m j := by
  rw [dataAt_mapP]
  unfold dataAt
  cases m.params[j]? with
  | none => rfl
  | some p => simp [hf]

theorem gradAt_mapP_of_pres (m : Model) (f : Nat → Param → Param) (j : Nat)
    (hf : ∀ i p, (f i p).grad = p.grad) :
    gradAt (m.mapP f) j = gradAt m j := by
  rw [gradAt_mapP]
  unfold gradAt
  cases m.params[j]? with
  | none => rfl
  | some p => simp [hf]

theorem accessors_train (m : Model) (j : Nat) :
    rgAt m.train j = rgAt m j ∧ gradAt m.train j = gradAt m j
      ∧ dataAt m.train j = dataAt m j :=
  ⟨rfl, rfl, rfl⟩

theorem rgAt_updateStats (m : Model) (f : Nat → List ℚ × List ℚ) (j : Nat) :
    rgAt (m.updateStats f) j = rgAt m j := by
  unfold rgAt
  rw [params_updateStats]

theorem gradAt_updateStats (m : Model) (f : Nat → List ℚ × List ℚ) (j : Nat) :
    gradAt (m.updateStats f) j = gradAt m j := by
  unfold gradAt
  rw [params_updateStats]

theorem dataAt_updateStats (m : Model) (f : Nat → List ℚ × List ℚ) (j : Nat) :
    dataAt (m.updateStats f) j = dataAt m j := by
  unfold dataAt
  rw [params_updateStats]

theorem rgAt_backward (g : Nat → List ℚ) (m : Model) (j : Nat) :
    rgAt (backwardModel g m) j = rgAt m j := by
  unfold backwardModel
  exact rgAt_mapP_of_pres m _ j (fun i p => by split <;> rfl)

theorem dataAt_backward (g : Nat → List ℚ) (m : Model) (j : Nat) :
    dataAt (backwardModel g m) j = dataAt m j := by
  unfold backwardModel
  exact dataAt_mapP_of_pres m _ j (fun i p => by split <;> rfl)

/-- `loss.backward()` leaves a frozen parameter's gradient untouched. -/
theorem gradAt_backward_frozen (g : Nat → List ℚ) (m : Model) (j : Nat)
    (hrg : rgAt m j = some false) :
    gradAt (backwardModel g m) j = gradAt m j := by
  unfold backwardModel
  rw [gradAt_mapP]
  cases hp : m.params[j]? with
  | none => simp [gradAt, hp]
  | some p =>
    have hb : p.requires_grad = false := by
      have := hrg
      rw [rgAt, hp] at this
      simpa using this
    simp [gradAt, hp, hb]

/-- `loss.backward()` populates a trainable parameter's gradient by
accumulation. -/
theorem gradAt_backward_rg (g : Nat → List ℚ) (m : Model) (j : Nat)
    (hrg : rgAt m j = some true) :
    gradAt (backwardModel g m) j = some (accumGrad (gradAt m j) (g j)) := by
  unfold backwardModel
  rw [gradAt_mapP]
  cases hp : m.params[j]? with
  | none => rw [rgAt, hp] at hrg; simp at hrg
  | some p =>
    have hb : p.requires_grad = true := by
      have := hrg
      rw [rgAt, hp] at this
      simpa using this
    simp [gradAt, hp, hb]

theorem rgAt_step (upd : List ℚ → List ℚ → List ℚ → List ℚ × List ℚ) (m : Model)
    (o : Optimizer) (j : Nat) :
    rgAt ((o.step upd m).1) j = rgAt m j := by
  unfold Optimizer.step
  refine rgAt_mapP_of_pres m _ j (fun i p => ?_)
  dsimp only
  cases (stepEntries upd m o).lookup i with
  | none => rfl
  | some r => obtain ⟨r1, r2⟩ := r; cases r1 <;> rfl

theorem gradAt_step (upd : List ℚ → List ℚ → List ℚ → List ℚ × List ℚ) (m : Model)
    (o : Optimizer) (j : Nat) :
    gradAt ((o.step upd m).1) j = gradAt m j := by
  unfold Optimizer.step
  refine gradAt_mapP_of_pres m _ j (fun i p => ?_)
  dsimp only
  cases (stepEntries upd m o).lookup i with
  | none => rfl
  | some r => obtain ⟨r1, r2⟩ := r; cases r1 <;> rfl

/-- Every entry `optimizer.step()` creates for a parameter whose gradient
is `None` carries no update. -/
theorem lookup_stepEntries_grad_none (upd : List ℚ → List ℚ → List ℚ → List ℚ × List ℚ)
    (m : Model) (o : Optimizer) (j : Nat) (hg : gradAt m j = none) :
    ∀ r, (stepEntries upd m o).lookup j = some r → r.1 = none := by
  obtain ⟨idxs, st⟩ := o
  induction idxs generalizing st with
  | nil => intro r hr; simp [stepEntries] at hr
  | cons i it ih =>
    intro r hr
    cases st with
    | nil => simp [stepEntries] at hr
    | cons s stt =>
      by_cases hji : j = i
      · subst hji
        cases hp : m.params[j]? with
        | none =>
          simp only [stepEntries, List.zipWith_cons_cons, hp] at hr
          simp [List.lookup] at hr
          subst hr
          rfl
        | some p =>
          have hpg : p.grad = none := by rw [gradAt, hp] at hg; exact hg
          simp only [stepEntries, List.zipWith_cons_cons, hp, hpg] at hr
          simp [List.lookup] at hr
          subst hr
          rfl
      · have hbeq : (j == i) = false := by simpa using hji
        cases hp : m.params[i]? with
        | none =>
          simp only [stepEntries, List.zipWith_cons_cons, hp] at hr
          simp only [List.lookup, hbeq] at hr
          exact ih stt r hr
        | some p =>
          cases hpg : p.grad with
          | none =>
            simp only [stepEntries, List.zipWith_cons_cons, hp, hpg] at hr
            simp only [List.lookup, hbeq] at hr
            exact ih stt r hr
          | some gg =>
            simp only [stepEntries, List.zipWith_cons_cons, hp, hpg] at hr
            simp only [List.lookup, hbeq] at hr
            exact ih stt r hr

/-- `optimizer.step()` does not move a parameter whose gradient is `None`
(torch Adam skips it). -/
theorem dataAt_step_of_grad_none (upd : List ℚ → List ℚ → List ℚ → List ℚ × List ℚ)
    (m : Model) (o : Optimizer) (j : Nat) (hg : gradAt m j = none) :
    dataAt ((o.step upd m).1) j = dataAt m j := by
  unfold Optimizer.step
  rw [dataAt_mapP]
  cases hp : m.params[j]? with
  | none => simp [dataAt, hp]
  | some p =>
    cases hl : (stepEntries upd m o).lookup j with
    | none => simp [dataAt, hp, hl]
    | some r =>
      have h1 : r.1 = none := lookup_stepEntries_grad_none upd m o j hg r hl
      simp [dataAt, hp, hl, h1]

theorem rgAt_zero_grad (idxs : List Nat) (m : Model) (j : Nat) :
    rgAt (zero_grad idxs m) j = rgAt m j := by
  unfold zero_grad
  refine rgAt_mapP_of_pres m _ j (fun i p => ?_)
  dsimp only
  split
  · unfold zeroGradP; cases p.grad <;> rfl
  · rfl

theorem dataAt_zero_grad (idxs : List Nat) (m : Model) (j : Nat) :
    dataAt (zero_grad idxs m) j = dataAt m j := by
  unfold zero_grad
  refine dataAt_mapP_of_pres m _ j (fun i p => ?_)
  dsimp only
  split
  · unfold zeroGradP; cases p.grad <;> rfl
  · rfl

theorem gradAt_zero_grad (idxs : List Nat) (m : Model) (j : Nat) :
    gradAt (zero_grad idxs m) j =
      if j ∈ idxs then (gradAt m j).map (fun g => g.map (fun _ => (0 : ℚ)))
      else gradAt m j := by
  unfold zero_grad
  rw [gradAt_mapP]
  cases hp : m.params[j]? with
  | none => simp [gradAt, hp]
  | some p =>
    by_cases hj : j ∈ idxs
    · simp only [gradAt, hp, if_pos hj]
      cases hpg : p.grad with
      | none => simp [zeroGradP, hpg]
      | some g => simp [zeroGradP, hpg]
    · simp [gradAt, hp, if_neg hj]

/-- One `forward_and_adapt` call leaves a frozen parameter with no residual
gradient exactly as it was. -/
theorem frame_step (B : Backend) (x : Mat) (m : Model) (o : Optimizer) (j : Nat)
    (hrg : rgAt m j = some false) (hg : gradAt m j = none) :
    dataAt (forward_and_adapt B x m o).2.1 j = dataAt m j
    ∧ gradAt (forward_and_adapt B x m o).2.1 j = none
    ∧ rgAt (forward_and_adapt B x m o).2.1 j = some false := by
  unfold forward_and_adapt
  dsimp only
  have hrg2 : rgAt (Model.updateStats m.train (fun k => B.bnStats m.train.fwdState x k)) j
      = rgAt m j :=
    rgAt_updateStats m.train (fun k => B.bnStats m.train.fwdState x k) j
  have hg2 : gradAt (Model.updateStats m.train (fun k => B.bnStats m.train.fwdState x k)) j
      = gradAt m j :=
    gradAt_updateStats m.train (fun k => B.bnStats m.train.fwdState x k) j
  have hrg3 := rgAt_backward (fun i => B.gradFn m.train.fwdState x i)
      (Model.updateStats m.train (fun k => B.bnStats m.train.fwdState x k)) j
  have hg3 := gradAt_backward_frozen (fun i => B.gradFn m.train.fwdState x i)
      (Model.updateStats m.train (fun k => B.bnStats m.train.fwdState x k)) j
      (by rw [hrg2]; exact hrg)
  have hd3 := dataAt_backward (fun i => B.gradFn m.train.fwdState x i)
      (Model.updateStats m.train (fun k => B.bnStats m.train.fwdState x k)) j
  have hgr3 : gradAt (backwardModel (fun i => B.gradFn m.train.fwdState x i)
      (Model.updateStats m.train (fun k => B.bnStats m.train.fwdState x k))) j = none := by
    rw [hg3, hg2, hg]
  refine ⟨?_, ?_, ?_⟩
  · rw [dataAt_zero_grad, dataAt_step_of_grad_none _ _ _ _ hgr3, hd3,
      dataAt_updateStats]
    rfl
  · rw [gradAt_zero_grad]
    rw [gradAt_step, hgr3]
    split <;> rfl
  · rw [rgAt_zero_grad, rgAt_step, hrg3, hrg2, hrg]

/-- Iterated version of `frame_step` over any batch sequence. -/
theorem frame_many (B : Backend) (xs : List Mat) (m : Model) (o : Optimizer) (j : Nat)
    (hrg : rgAt m j = some false) (hg : gradAt m j = none) :
    dataAt (adaptMany B xs (m, o)).1 j = dataAt m j
    ∧ gradAt (adaptMany B xs (m, o)).1 j = none
    ∧ rgAt (adaptMany B xs (m, o)).1 j = some false := by
  induction xs generalizing m o with
  | nil => exact ⟨rfl, hg, hrg⟩
  | cons x xs ih =>
    have hs := frame_step B x m o j hrg hg
    have hrec := ih (forward_and_adapt B x m o).2.1 (forward_and_adapt B x m o).2.2
      hs.2.2 hs.2.1
    exact ⟨hrec.1.trans hs.1, hrec.2.1, hrec.2.2⟩

/-- C5 counterexample: `setup_bnm` collects the parameters with
`bn_only=False`, so the optimizer it builds is bound to all three
parameters of a concrete model — index 0 is a frozen non-normalization
parameter — and not to the BatchNorm affine subset `[1, 2]`. -/
theorem setup_bnm_not_bn_bound_cex :
    (setup_bnm mWit).map (fun b => b.optimizer.paramIdxs) = some [0, 1, 2]
    ∧ (setup_bnm mWit).map (fun b => collectIdxs b.model true) = some [1, 2]
    ∧ (setup_bnm mWit).map (fun b => rgAt b.model 0) = some (some false)
    ∧ ([0, 1, 2] : List Nat) ≠ [1, 2] := by
  refine ⟨rfl, rfl, rfl, by decide⟩

/-- C5 (amended): the optimizer `setup_bnm` builds is bound to the whole
parameter list (`collect_params(model, False)`), not only the
normalization-affine subset; nevertheless each optimizer step inside
`forward_and_adapt` moves only parameters that carry gradients, so every
frozen parameter with no residual gradient is left unchanged by any number
of adaptation steps. -/
theorem setup_bnm_optimizer_spec (m : Model) (b : BNM) (hb : setup_bnm m = some b)
    (B : Backend) (xs : List Mat) (j : Nat)
    (hrg : rgAt b.model j = some false) (hgr : gradAt b.model j = none) :
    b.optimizer.paramIdxs = collectIdxs b.model false
    ∧ collectIdxs b.model false = List.range b.model.params.length
    ∧ dataAt (adaptMany B xs (b.model, b.optimizer)).1 j = dataAt b.model j
    ∧ gradAt (adaptMany B xs (b.model, b.optimizer)).1 j = none := by
  unfold setup_bnm BNM.init at hb
  rw [if_pos (by decide : (1 : Nat) > 0)] at hb
  injection hb with hb
  subst hb
  exact ⟨rfl, rfl, (frame_many B xs _ _ j hrg hgr).1, (frame_many B xs _ _ j hrg hgr).2.1⟩

/-- C5 witness: on the concrete model, the frozen plain parameter (flat
index 0) is untouched by an adaptation pass. -/
theorem setup_bnm_optimizer_spec_witness :
    dataAt (adaptMany BWit [[[1]]] (configure_model mWit,
        setup_optimizer (collectIdxs (configure_model mWit) false))).1 0
      = dataAt (configure_model mWit) 0
    ∧ gradAt (adaptMany BWit [[[1]]] (configure_model mWit,
        setup_optimizer (collectIdxs (configure_model mWit) false))).1 0 = none := by
  have h := setup_bnm_optimizer_spec mWit
    { model := configure_model mWit,
      optimizer := setup_optimizer (collectIdxs (configure_model mWit) false),
      steps := 1, episodic := false,
      model_state := some (copy_model_and_optimizer (configure_model mWit)
        (setup_optimizer (collectIdxs (configure_model mWit) false))).1,
      optimizer_state := some (copy_model_and_optimizer (configure_model mWit)
        (setup_optimizer (collectIdxs (configure_model mWit) false))).2 }
    rfl BWit [[[1]]] 0 (by decide) (by decide)
  exact ⟨h.2.2.1, h.2.2.2⟩

/-! ### The forward-relevant view commutes with the training operations -/

theorem numParams_strip (md : Layer) : md.strip.numParams = md.numParams := by
  cases md with
  | bn b => by_cases h : b.affine <;> simp [Layer.strip, Layer.numParams, Layer.params, h]
  | plain ps => simp [Layer.strip, Layer.numParams, Layer.params]

theorem strip_mapParamsFrom (f : Nat → Param → Param) (k : Nat) (md : Layer)
    (hf : ∀ i p, (f i p).strip = f i p.strip) :
    (md.mapParamsFrom f k).strip = md.strip.mapParamsFrom f k := by
  cases md with
  | bn b =>
    by_cases h : b.affine <;>
      simp [Layer.mapParamsFrom, Layer.strip, h, hf]
  | plain ps =>
    simp only [Layer.mapParamsFrom, Layer.strip, Layer.plain.injEq]
    induction ps generalizing k with
    | nil => rfl
    | cons p pt ih => simp [mapIdxFrom, hf, ih]

theorem strip_mapPGo (f : Nat → Param → Param) (k : Nat) (mods : List Layer)
    (hf : ∀ i p, (f i p).strip = f i p.strip) :
    (mapPGo f k mods).map Layer.strip = mapPGo f k (mods.map Layer.strip) := by
  induction mods generalizing k with
  | nil => rfl
  | cons md rest ih =>
    simp only [mapPGo, List.map_cons, List.cons.injEq, numParams_strip]
    exact ⟨strip_mapParamsFrom f k md hf, ih (k + md.numParams)⟩

theorem fwdState_mapP (m : Model) (f : Nat → Param → Param)
    (hf : ∀ i p, (f i p).strip = f i p.strip) :
    (m.mapP f).fwdState = m.fwdState.mapP f := by
  simp [Model.fwdState, Model.mapP, strip_mapPGo f 0 m.modules hf]

theorem mapIdxFrom_eq_self (f : Nat → Param → Param) (k : Nat) (ps : List Param)
    (hfix : ∀ j p, ps[j]? = some p → f (k + j) p = p) :
    mapIdxFrom f k ps = ps := by
  induction ps generalizing k with
  | nil => rfl
  | cons p pt ih =>
    simp only [mapIdxFrom, List.cons.injEq]
    constructor
    · simpa using hfix 0 p (by simp)
    · refine ih (k + 1) (fun j q hq => ?_)
      have h1 := hfix (j + 1) q (by simpa using hq)
      have harith : k + (j + 1) = k + 1 + j := by omega
      rwa [harith] at h1

theorem mapPGo_eq_self (f : Nat → Param → Param) (k : Nat) (mods : List Layer)
    (hfix : ∀ j p, (layersParams mods)[j]? = some p → f (k + j) p = p) :
    mapPGo f k mods = mods := by
  induction mods generalizing k with
  | nil => rfl
  | cons md rest ih =>
    simp only [mapPGo, List.cons.injEq]
    have hhead : ∀ j p, md.params[j]? = some p → f (k + j) p = p := by
      intro j p hj
      have hlt : j < md.params.length := by
        by_contra hcon
        rw [List.getElem?_eq_none (Nat.le_of_not_lt hcon)] at hj
        exact Option.noConfusion hj
      refine hfix j p ?_
      rw [layersParams_cons, List.getElem?_append, if_pos hlt]
      exact hj
    constructor
    · cases md with
      | bn b =>
        simp only [Layer.mapParamsFrom]
        by_cases h : b.affine
        · have hw := hhead 0 b.weight (by simp [Layer.params, h])
          have hbb := hhead 1 b.bias (by simp [Layer.params, h])
          rw [Nat.add_zero] at hw
          rw [if_pos h, hw, hbb]
        · rw [if_neg h]
      | plain ps =>
        simp only [Layer.mapParamsFrom, Layer.plain.injEq]
        exact mapIdxFrom_eq_self f k ps (fun j p hj => hhead j p hj)
    · refine ih (k + md.numParams) (fun j p hj => ?_)
      have h2 : (layersParams (md :: rest))[md.numParams + j]? = some p := by
        rw [layersParams_cons, List.getElem?_append,
          if_neg (by simp only [Layer.numParams]; omega)]
        simpa [Layer.numParams] using hj
      have h3 := hfix (md.numParams + j) p h2
      have harith : k + (md.numParams + j) = k + md.numParams + j := by omega
      rwa [harith] at h3

theorem mapP_eq_self_of_fix (m : Model) (f : Nat → Param → Param)
    (hfix : ∀ j p, m.params[j]? = some p → f j p = p) :
    m.mapP f = m := by
  have : mapPGo f 0 m.modules = m.modules :=
    mapPGo_eq_self f 0 m.modules (fun j p hj => by rw [Nat.zero_add]; exact hfix j p hj)
  simp [Model.mapP, this]

theorem getElem?_params_fwdState (m : Model) (j : Nat) :
    m.fwdState.params[j]? = (m.params[j]?).map Param.strip := by
  rw [params_fwdState]
  exact List.getElem?_map ..

theorem fwdState_backward (g : Nat → List ℚ) (m : Model) :
    (backwardModel g m).fwdState = m.fwdState := by
  unfold backwardModel
  rw [fwdState_mapP m _ (fun i p => by split <;> rfl)]
  refine mapP_eq_self_of_fix _ _ (fun j p hj => ?_)
  rw [getElem?_params_fwdState] at hj
  cases hp : m.params[j]? with
  | none => rw [hp] at hj; exact Option.noConfusion hj
  | some q =>
    rw [hp] at hj
    have : p = q.strip := by simpa using hj.symm
    subst this
    simp [Param.strip]

theorem fwdState_zero_grad (idxs : List Nat) (m : Model) :
    (zero_grad idxs m).fwdState = m.fwdState := by
  unfold zero_grad
  rw [fwdState_mapP m _ (fun i p => by
    split
    · unfold zeroGradP; cases p.grad <;> rfl
    · rfl)]
  refine mapP_eq_self_of_fix _ _ (fun j p hj => ?_)
  rw [getElem?_params_fwdState] at hj
  cases hp : m.params[j]? with
  | none => rw [hp] at hj; exact Option.noConfusion hj
  | some q =>
    rw [hp] at hj
    have : p = q.strip := by simpa using hj.symm
    subst this
    split
    · simp [zeroGradP, Param.strip]
    · rfl

theorem fwdState_step (upd : List ℚ → List ℚ → List ℚ → List ℚ × List ℚ) (m : Model)
    (o : Optimizer) :
    ((o.step upd m).1).fwdState =
      m.fwdState.mapP (fun i p =>
        match (stepEntries upd m o).lookup i with
        | some r => match r.1 with | some d => p.setData d | none => p
        | none => p) := by
  unfold Optimizer.step
  refine fwdState_mapP m _ (fun i p => ?_)
  dsimp only
  cases (stepEntries upd m o).lookup i with
  | none => rfl
  | some r => obtain ⟨r1, r2⟩ := r; cases r1 <;> rfl

theorem fwdState_updStatsGo (t : Bool) (f : Nat → List ℚ × List ℚ) (k : Nat)
    (mods : List Layer) :
    (updStatsGo t f k mods).map Layer.strip = updStatsGo t f k (mods.map Layer.strip) := by
  induction mods generalizing k with
  | nil => rfl
  | cons md rest ih =>
    cases md with
    | bn b =>
      simp only [updStatsGo, List.map_cons, Layer.strip, BatchNorm2d.updStats]
      split <;> simp_all [ih]
    | plain ps => simp only [updStatsGo, List.map_cons, Layer.strip, ih]

theorem fwdState_updateStats (m : Model) (f : Nat → List ℚ × List ℚ) :
    (m.updateStats f).fwdState = m.fwdState.updateStats f := by
  simp [Model.fwdState, Model.updateStats, fwdState_updStatsGo]

theorem fwdState_train (m : Model) : m.train.fwdState = m.fwdState.train := rfl

theorem fwdState_evalMode (m : Model) : m.evalMode.fwdState = m.fwdState.evalMode := rfl

/-! ### Congruence: two models the forward/adapt machinery cannot tell apart -/

theorem dataAt_fwdState (m : Model) (i : Nat) : dataAt m.fwdState i = dataAt m i := by
  unfold dataAt
  rw [getElem?_params_fwdState]
  cases m.params[i]? <;> rfl

theorem dataAt_of_view (m₁ m₂ : Model) (i : Nat)
    (hv : m₁.train.fwdState = m₂.train.fwdState) : dataAt m₁ i = dataAt m₂ i := by
  have h1 : dataAt m₁.train.fwdState i = dataAt m₂.train.fwdState i := by rw [hv]
  rw [dataAt_fwdState, dataAt_fwdState] at h1
  exact h1

theorem isSome_params_of_rgAt (m₁ m₂ : Model) (i : Nat) (h : rgAt m₁ i = rgAt m₂ i) :
    (m₁.params[i]?).isSome = (m₂.params[i]?).isSome := by
  have h1 := congrArg Option.isSome h
  simpa [rgAt, Option.isSome_map] using h1

theorem gradAt_none_of_rgAt_none (m : Model) (i : Nat) (h : rgAt m i = none) :
    gradAt m i = none := by
  unfold gradAt
  cases hp : m.params[i]? with
  | none => rfl
  | some p => rw [rgAt, hp] at h; exact absurd h (by simp)

theorem gradAt_backward_notrg (g : Nat → List ℚ) (m : Model) (i : Nat)
    (h : rgAt m i ≠ some true) :
    gradAt (backwardModel g m) i = gradAt m i := by
  unfold backwardModel
  rw [gradAt_mapP]
  cases hp : m.params[i]? with
  | none => simp [gradAt, hp]
  | some p =>
    have hb : p.requires_grad = false := by
      cases hrg2 : p.requires_grad with
      | false => rfl
      | true =>
        exfalso
        apply h
        rw [rgAt, hp]
        simp [hrg2]
    simp [gradAt, hp, hb]

theorem zipWith_congr_left_mem {α β γ : Type} (f g : α → β → γ) (l₁ : List α) (l₂ : List β)
    (h : ∀ a ∈ l₁, ∀ b, f a b = g a b) :
    List.zipWith f l₁ l₂ = List.zipWith g l₁ l₂ := by
  induction l₁ generalizing l₂ with
  | nil => rfl
  | cons a t ih =>
    cases l₂ with
    | nil => rfl
    | cons b t₂ =>
      simp only [List.zipWith_cons_cons]
      rw [h a (List.mem_cons_self a t) b,
        ih t₂ (fun a' ha' b' => h a' (List.mem_cons_of_mem a ha') b')]

theorem stepEntries_congr (upd : List ℚ → List ℚ → List ℚ → List ℚ × List ℚ)
    (m₁ m₂ : Model) (o : Optimizer)
    (hd : ∀ i ∈ o.paramIdxs, dataAt m₁ i = dataAt m₂ i)
    (hgr : ∀ i ∈ o.paramIdxs, gradAt m₁ i = gradAt m₂ i)
    (hrg : ∀ i ∈ o.paramIdxs, rgAt m₁ i = rgAt m₂ i) :
    stepEntries upd m₁ o = stepEntries upd m₂ o := by
  unfold stepEntries
  refine zipWith_congr_left_mem _ _ o.paramIdxs o.state (fun i hi st => ?_)
  have hsome := isSome_params_of_rgAt m₁ m₂ i (hrg i hi)
  cases hp1 : m₁.params[i]? with
  | none =>
    cases hp2 : m₂.params[i]? with
    | none => rfl
    | some p₂ => rw [hp1, hp2] at hsome; exact absurd hsome (by simp)
  | some p₁ =>
    cases hp2 : m₂.params[i]? with
    | none => rw [hp1, hp2] at hsome; exact absurd hsome (by simp)
    | some p₂ =>
      have hdata : p₁.data = p₂.data := by
        have := hd i hi
        rw [dataAt, dataAt, hp1, hp2] at this
        simpa using this
      have hgrad : p₁.grad = p₂.grad := by
        have := hgr i hi
        rw [gradAt, gradAt, hp1, hp2] at this
        exact this
      dsimp only
      rw [← hgrad, ← hdata]

/-- One adaptation step cannot distinguish two models that agree on the
forward-relevant view, the `requires_grad` assignment, and (up to gradient
accumulation) the gradients of the optimizer's parameters: the outputs, the
optimizer, and the visible part of the resulting models coincide, and the
registered gradients become equal. -/
theorem adapt_sim (B : Backend) (x : Mat) (o : Optimizer) (m₁ m₂ : Model)
    (hv : m₁.train.fwdState = m₂.train.fwdState)
    (hrg : ∀ i, rgAt m₁ i = rgAt m₂ i)
    (hg : ∀ i ∈ o.paramIdxs,
        GradMatch (B.gradFn m₁.train.fwdState x i) (rgAt m₁ i) (gradAt m₁ i) (gradAt m₂ i)) :
    (forward_and_adapt B x m₁ o).1 = (forward_and_adapt B x m₂ o).1
    ∧ (forward_and_adapt B x m₁ o).2.1.fwdState = (forward_and_adapt B x m₂ o).2.1.fwdState
    ∧ (∀ i, rgAt (forward_and_adapt B x m₁ o).2.1 i = rgAt (forward_and_adapt B x m₂ o).2.1 i)
    ∧ (∀ i ∈ o.paramIdxs,
        gradAt (forward_and_adapt B x m₁ o).2.1 i
          = gradAt (forward_and_adapt B x m₂ o).2.1 i)
    ∧ (forward_and_adapt B x m₁ o).2.2 = (forward_and_adapt B x m₂ o).2.2 := by
  have hrgM : ∀ i, rgAt (backwardModel (fun i => B.gradFn m₁.train.fwdState x i)
      (m₁.train.updateStats (fun k => B.bnStats m₁.train.fwdState x k))) i = rgAt m₁ i := by
    intro i
    rw [rgAt_backward, rgAt_updateStats]
    exact (accessors_train m₁ i).1
  have hrgM₂ : ∀ i, rgAt (backwardModel (fun i => B.gradFn m₂.train.fwdState x i)
      (m₂.train.updateStats (fun k => B.bnStats m₂.train.fwdState x k))) i = rgAt m₂ i := by
    intro i
    rw [rgAt_backward, rgAt_updateStats]
    exact (accessors_train m₂ i).1
  have hvM : (backwardModel (fun i => B.gradFn m₁.train.fwdState x i)
        (m₁.train.updateStats (fun k => B.bnStats m₁.train.fwdState x k))).fwdState
      = (backwardModel (fun i => B.gradFn m₂.train.fwdState x i)
        (m₂.train.updateStats (fun k => B.bnStats m₂.train.fwdState x k))).fwdState := by
    rw [fwdState_backward, fwdState_backward, fwdState_updateStats, fwdState_updateStats, hv]
  have hdM : ∀ i, dataAt (backwardModel (fun i => B.gradFn m₁.train.fwdState x i)
        (m₁.train.updateStats (fun k => B.bnStats m₁.train.fwdState x k))) i
      = dataAt (backwardModel (fun i => B.gradFn m₂.train.fwdState x i)
        (m₂.train.updateStats (fun k => B.bnStats m₂.train.fwdState x k))) i := by
    intro i
    have h1 := congrArg (fun mm => dataAt mm i) hvM
    simpa [dataAt_fwdState] using h1
  have hrgMM : ∀ i, rgAt (backwardModel (fun i => B.gradFn m₁.train.fwdState x i)
        (m₁.train.updateStats (fun k => B.bnStats m₁.train.fwdState x k))) i
      = rgAt (backwardModel (fun i => B.gradFn m₂.train.fwdState x i)
        (m₂.train.updateStats (fun k => B.bnStats m₂.train.fwdState x k))) i := by
    intro i
    rw [hrgM, hrgM₂]
    exact hrg i
  have hgM : ∀ i ∈ o.paramIdxs,
      gradAt (backwardModel (fun i => B.gradFn m₁.train.fwdState x i)
        (m₁.train.updateStats (fun k => B.bnStats m₁.train.fwdState x k))) i
      = gradAt (backwardModel (fun i => B.gradFn m₂.train.fwdState x i)
        (m₂.train.updateStats (fun k => B.bnStats m₂.train.fwdState x k))) i := by
    intro i hi
    have hgi := hg i hi
    cases hcase : rgAt m₁ i with
    | none =>
      rw [gradAt_backward_notrg _ _ _
          (by rw [rgAt_updateStats]
              have h0 : rgAt m₁.train i = rgAt m₁ i := (accessors_train m₁ i).1
              rw [h0, hcase]
              simp),
        gradAt_backward_notrg _ _ _
          (by rw [rgAt_updateStats]
              have h0 : rgAt m₂.train i = rgAt m₂ i := (accessors_train m₂ i).1
              rw [h0, ← hrg i, hcase]
              simp)]
      rw [gradAt_updateStats, gradAt_updateStats]
      have hgi' : gradAt m₁ i = gradAt m₂ i := by
        unfold GradMatch at hgi
        rw [hcase] at hgi
        exact hgi
      exact hgi'
    | some bv =>
      cases bv with
      | false =>
        rw [gradAt_backward_notrg _ _ _
            (by rw [rgAt_updateStats]
                have h0 : rgAt m₁.train i = rgAt m₁ i := (accessors_train m₁ i).1
                rw [h0, hcase]
                simp),
          gradAt_backward_notrg _ _ _
            (by rw [rgAt_updateStats]
                have h0 : rgAt m₂.train i = rgAt m₂ i := (accessors_train m₂ i).1
                rw [h0, ← hrg i, hcase]
                simp)]
        rw [gradAt_updateStats, gradAt_updateStats]
        have hgi' : gradAt m₁ i = gradAt m₂ i := by
          unfold GradMatch at hgi
          rw [hcase] at hgi
          exact hgi
        exact hgi'
      | true =>
        rw [gradAt_backward_rg _ _ _
            (by rw [rgAt_updateStats]
                have h0 : rgAt m₁.train i = rgAt m₁ i := (accessors_train m₁ i).1
                rw [h0, hcase]),
          gradAt_backward_rg _ _ _
            (by rw [rgAt_updateStats]
                have h0 : rgAt m₂.train i = rgAt m₂ i := (accessors_train m₂ i).1
                rw [h0, ← hrg i, hcase])]
        rw [gradAt_updateStats, gradAt_updateStats, ← hv]
        have hgi' : accumGrad (gradAt m₁ i) (B.gradFn m₁.train.fwdState x i)
            = accumGrad (gradAt m₂ i) (B.gradFn m₁.train.fwdState x i) := by
          unfold GradMatch at hgi
          rw [hcase] at hgi
          exact hgi
        have h1 : gradAt m₁.train i = gradAt m₁ i := (accessors_train m₁ i).2.1
        have h2 : gradAt m₂.train i = gradAt m₂ i := (accessors_train m₂ i).2.1
        rw [h1, h2, hgi']
  have hEnt : stepEntries B.upd (backwardModel (fun i => B.gradFn m₁.train.fwdState x i)
        (m₁.train.updateStats (fun k => B.bnStats m₁.train.fwdState x k))) o
      = stepEntries B.upd (backwardModel (fun i => B.gradFn m₂.train.fwdState x i)
        (m₂.train.updateStats (fun k => B.bnStats m₂.train.fwdState x k))) o :=
    stepEntries_congr B.upd _ _ o (fun i _ => hdM i) hgM (fun i _ => hrgMM i)
  have hOpt : (Optimizer.step o B.upd (backwardModel (fun i => B.gradFn m₁.train.fwdState x i)
        (m₁.train.updateStats (fun k => B.bnStats m₁.train.fwdState x k)))).2
      = (Optimizer.step o B.upd (backwardModel (fun i => B.gradFn m₂.train.fwdState x i)
        (m₂.train.updateStats (fun k => B.bnStats m₂.train.fwdState x k)))).2 := by
    unfold Optimizer.step
    rw [hEnt]
  refine ⟨by show B.fwd m₁.train.fwdState x = B.fwd m₂.train.fwdState x; rw [hv],
    ?_, ?_, ?_, ?_⟩
  · show (zero_grad _ _).fwdState = (zero_grad _ _).fwdState
    rw [hOpt, fwdState_zero_grad, fwdState_zero_grad, fwdState_step, fwdState_step, hvM, hEnt]
  · intro i
    show rgAt (zero_grad _ _) i = rgAt (zero_grad _ _) i
    rw [rgAt_zero_grad, rgAt_zero_grad, rgAt_step, rgAt_step]
    exact hrgMM i
  · intro i hi
    show gradAt (zero_grad _ _) i = gradAt (zero_grad _ _) i
    rw [hOpt, gradAt_zero_grad, gradAt_zero_grad, gradAt_step, gradAt_step, hgM i hi]
  · exact hOpt

theorem GradMatch_of_eq (fresh : List ℚ) (rg : Option Bool) (g₁ g₂ : Option (List ℚ))
    (h : g₁ = g₂) : GradMatch fresh rg g₁ g₂ := by
  subst h
  unfold GradMatch
  cases rg with
  | none => rfl
  | some b => cases b <;> rfl

theorem evalView_of_trainView (m₁ m₂ : Model)
    (h : m₁.train.fwdState = m₂.train.fwdState) :
    m₁.evalMode.fwdState = m₂.evalMode.fwdState := by
  have hm := congrArg Model.modules h
  rw [fwdState_evalMode, fwdState_evalMode]
  show Model.mk false m₁.fwdState.modules = Model.mk false m₂.fwdState.modules
  exact congrArg (Model.mk false) hm

/-- Iterated simulation: the whole adaptation loop cannot distinguish two
related post-reset states. -/
theorem adapt_sim_iter (B : Backend) (x : Mat) (n : Nat) :
    ∀ (o : Optimizer) (m₁ m₂ : Model),
    m₁.train.fwdState = m₂.train.fwdState →
    (∀ i, rgAt m₁ i = rgAt m₂ i) →
    (∀ i ∈ o.paramIdxs,
        GradMatch (B.gradFn m₁.train.fwdState x i) (rgAt m₁ i) (gradAt m₁ i) (gradAt m₂ i)) →
    ((adaptPair B x)^[n] (m₁, o)).2 = ((adaptPair B x)^[n] (m₂, o)).2
    ∧ ((adaptPair B x)^[n] (m₁, o)).1.train.fwdState
        = ((adaptPair B x)^[n] (m₂, o)).1.train.fwdState
    ∧ ∀ i, rgAt ((adaptPair B x)^[n] (m₁, o)).1 i = rgAt ((adaptPair B x)^[n] (m₂, o)).1 i := by
  induction n with
  | zero => exact fun o m₁ m₂ hv hrg _ => ⟨rfl, hv, hrg⟩
  | succ k ih =>
    intro o m₁ m₂ hv hrg hg
    have hsim := adapt_sim B x o m₁ m₂ hv hrg hg
    have hOpt := hsim.2.2.2.2
    have e1 : (adaptPair B x)^[k + 1] (m₁, o)
        = (adaptPair B x)^[k] ((forward_and_adapt B x m₁ o).2.1,
            (forward_and_adapt B x m₁ o).2.2) := by
      rw [Function.iterate_succ_apply]
      rfl
    have e2 : (adaptPair B x)^[k + 1] (m₂, o)
        = (adaptPair B x)^[k] ((forward_and_adapt B x m₂ o).2.1,
            (forward_and_adapt B x m₁ o).2.2) := by
      rw [Function.iterate_succ_apply]
      show (adaptPair B x)^[k] (forward_and_adapt B x m₂ o).2 = _
      rw [show (forward_and_adapt B x m₂ o).2
          = ((forward_and_adapt B x m₂ o).2.1, (forward_and_adapt B x m₂ o).2.2) from rfl,
        ← hOpt]
    have hv' : (forward_and_adapt B x m₁ o).2.1.train.fwdState
        = (forward_and_adapt B x m₂ o).2.1.train.fwdState := by
      rw [fwdState_train, fwdState_train, hsim.2.1]
    have hg' : ∀ i ∈ (forward_and_adapt B x m₁ o).2.2.paramIdxs,
        GradMatch (B.gradFn (forward_and_adapt B x m₁ o).2.1.train.fwdState x i)
          (rgAt (forward_and_adapt B x m₁ o).2.1 i)
          (gradAt (forward_and_adapt B x m₁ o).2.1 i)
          (gradAt (forward_and_adapt B x m₂ o).2.1 i) := by
      intro i hi
      exact GradMatch_of_eq _ _ _ _ (hsim.2.2.2.1 i hi)
    have hres := ih (forward_and_adapt B x m₁ o).2.2
      (forward_and_adapt B x m₁ o).2.1 (forward_and_adapt B x m₂ o).2.1
      hv' hsim.2.2.1 hg'
    rw [e1, e2]
    exact hres

/-! ### Single-run preservation across the adaptation loop -/

theorem attrs_mapParamsFrom (f : Nat → Param → Param) (k : Nat) (md : Layer) :
    (md.mapParamsFrom f k).attrsM = md.attrsM := by
  cases md with
  | bn b =>
    by_cases h : b.affine <;> simp [Layer.mapParamsFrom, Layer.attrsM, h]
  | plain ps =>
    simp only [Layer.mapParamsFrom, Layer.attrsM, Layer.plain.injEq]
    exact map_const_of_length _ _ _ (length_mapIdxFrom f k ps)

theorem attrs_mapPGo (f : Nat → Param → Param) (k : Nat) (mods : List Layer) :
    (mapPGo f k mods).map Layer.attrsM = mods.map Layer.attrsM := by
  induction mods generalizing k with
  | nil => rfl
  | cons md rest ih => simp [mapPGo, attrs_mapParamsFrom, ih]

theorem attrs_mapP (m : Model) (f : Nat → Param → Param) :
    (m.mapP f).attrsOf = m.attrsOf := by
  simp [Model.attrsOf, Model.mapP, attrs_mapPGo]

theorem attrs_updStatsGo (t : Bool) (f : Nat → List ℚ × List ℚ) (k : Nat)
    (mods : List Layer) :
    (updStatsGo t f k mods).map Layer.attrsM = mods.map Layer.attrsM := by
  induction mods generalizing k with
  | nil => rfl
  | cons md rest ih =>
    cases md with
    | bn b =>
      simp only [updStatsGo, List.map_cons, ih]
      congr 1
      simp only [BatchNorm2d.updStats]
      split <;> rfl
    | plain ps => simp only [updStatsGo, List.map_cons, ih]

theorem attrs_updateStats (m : Model) (f : Nat → List ℚ × List ℚ) :
    (m.updateStats f).attrsOf = m.attrsOf := by
  simp [Model.attrsOf, Model.updateStats, attrs_updStatsGo]

theorem attrs_train (m : Model) : m.train.attrsOf = m.attrsOf := rfl

theorem attrs_evalMode (m : Model) : m.evalMode.attrsOf = m.attrsOf := rfl

theorem attrs_forward_and_adapt (B : Backend) (x : Mat) (m : Model) (o : Optimizer) :
    (forward_and_adapt B x m o).2.1.attrsOf = m.attrsOf := by
  show (zero_grad _ _).attrsOf = m.attrsOf
  unfold zero_grad
  rw [attrs_mapP]
  show ((Model.mapP _ _)).attrsOf = m.attrsOf
  rw [attrs_mapP]
  unfold backwardModel
  rw [attrs_mapP, attrs_updateStats, attrs_train]

theorem rg_forward_and_adapt (B : Backend) (x : Mat) (m : Model) (o : Optimizer) (i : Nat) :
    rgAt (forward_and_adapt B x m o).2.1 i = rgAt m i := by
  show rgAt (zero_grad _ _) i = rgAt m i
  rw [rgAt_zero_grad, rgAt_step, rgAt_backward, rgAt_updateStats]
  exact (accessors_train m i).1

theorem adapt_iter_pres (B : Backend) (x : Mat) (n : Nat) :
    ∀ (mo : Model × Optimizer),
    ((adaptPair B x)^[n] mo).2.paramIdxs = mo.2.paramIdxs
    ∧ Model.attrsOf ((adaptPair B x)^[n] mo).1 = Model.attrsOf mo.1
    ∧ ∀ i, rgAt ((adaptPair B x)^[n] mo).1 i = rgAt mo.1 i := by
  induction n with
  | zero => exact fun mo => ⟨rfl, rfl, fun i => rfl⟩
  | succ k ih =>
    intro mo
    have hstep := ih (adaptPair B x mo)
    have e1 : (adaptPair B x)^[k + 1] mo = (adaptPair B x)^[k] (adaptPair B x mo) :=
      Function.iterate_succ_apply ..
    rw [e1]
    refine ⟨hstep.1.trans rfl, hstep.2.1.trans ?_, fun i => (hstep.2.2 i).trans ?_⟩
    · exact attrs_forward_and_adapt B x mo.1 mo.2
    · exact rg_forward_and_adapt B x mo.1 mo.2 i

theorem map_zero_eq_replicate (l : List ℚ) :
    l.map (fun _ => (0 : ℚ)) = List.replicate l.length 0 := by
  induction l with
  | nil => rfl
  | cons a t ih => simp [List.replicate_succ, ih]

theorem zipWith_replicate_zero (l : List ℚ) (n : Nat) (h : l.length = n) :
    List.zipWith (· + ·) (List.replicate n 0) l = l := by
  subst h
  induction l with
  | nil => rfl
  | cons a t ih =>
    simp only [List.length_cons, List.replicate_succ, List.zipWith_cons_cons, zero_add]
    rw [ih]

/-- One adaptation step keeps the registered gradient slots in the
call-boundary shape (unset or zeroed with the autograd gradient's
length). -/
theorem adapt_step_gradOK (B : Backend) (x : Mat) (m : Model) (o : Optimizer)
    (ℓ : Nat → Nat) (hℓ : ∀ (v : Model) (i : Nat), (B.gradFn v x i).length = ℓ i)
    (i : Nat) (hi : i ∈ o.paramIdxs) (hok : GradOK (rgAt m i) (ℓ i) (gradAt m i)) :
    GradOK (rgAt (forward_and_adapt B x m o).2.1 i) (ℓ i)
      (gradAt (forward_and_adapt B x m o).2.1 i) := by
  have hrgf := rg_forward_and_adapt B x m o i
  rw [hrgf]
  show GradOK _ _ (gradAt (zero_grad _ _) i)
  rw [gradAt_zero_grad]
  have hmem : i ∈ (Optimizer.step o B.upd (backwardModel (fun i => B.gradFn m.train.fwdState x i)
      (m.train.updateStats (fun k => B.bnStats m.train.fwdState x k)))).2.paramIdxs := hi
  rw [if_pos hmem, gradAt_step]
  unfold GradOK at hok ⊢
  cases hcase : rgAt m i with
  | none =>
    rw [hcase] at hok
    have hnone : gradAt (backwardModel (fun i => B.gradFn m.train.fwdState x i)
        (m.train.updateStats (fun k => B.bnStats m.train.fwdState x k))) i = none := by
      rw [gradAt_backward_notrg _ _ _ (by
        rw [rgAt_updateStats]
        have h0 : rgAt m.train i = rgAt m i := (accessors_train m i).1
        rw [h0, hcase]
        simp)]
      rw [gradAt_updateStats]
      have h1 : gradAt m.train i = gradAt m i := (accessors_train m i).2.1
      rw [h1, hok]
    rw [hnone]
    rfl
  | some bv =>
    cases bv with
    | false =>
      rw [hcase] at hok
      have hnone : gradAt (backwardModel (fun i => B.gradFn m.train.fwdState x i)
          (m.train.updateStats (fun k => B.bnStats m.train.fwdState x k))) i = none := by
        rw [gradAt_backward_notrg _ _ _ (by
          rw [rgAt_updateStats]
          have h0 : rgAt m.train i = rgAt m i := (accessors_train m i).1
          rw [h0, hcase]
          simp)]
        rw [gradAt_updateStats]
        have h1 : gradAt m.train i = gradAt m i := (accessors_train m i).2.1
        rw [h1, hok]
      rw [hnone]
      rfl
    | true =>
      rw [hcase] at hok
      have hsome : gradAt (backwardModel (fun i => B.gradFn m.train.fwdState x i)
          (m.train.updateStats (fun k => B.bnStats m.train.fwdState x k))) i
          = some (accumGrad (gradAt m i) (B.gradFn m.train.fwdState x i)) := by
        rw [gradAt_backward_rg _ _ _ (by
          rw [rgAt_updateStats]
          have h0 : rgAt m.train i = rgAt m i := (accessors_train m i).1
          rw [h0, hcase])]
        rw [gradAt_updateStats]
        have h1 : gradAt m.train i = gradAt m i := (accessors_train m i).2.1
        rw [h1]
      rw [hsome]
      refine Or.inr ?_
      have hlen : (accumGrad (gradAt m i) (B.gradFn m.train.fwdState x i)).length = ℓ i := by
        cases hok with
        | inl hnone =>
          rw [hnone]
          unfold accumGrad
          exact hℓ m.train.fwdState i
        | inr hzero =>
          rw [hzero]
          unfold accumGrad
          rw [List.length_zipWith, List.length_replicate, hℓ m.train.fwdState i]
          exact Nat.min_self (ℓ i)
      show some ((accumGrad (gradAt m i) (B.gradFn m.train.fwdState x i)).map
          (fun _ => (0 : ℚ))) = some (List.replicate (ℓ i) 0)
      rw [map_zero_eq_replicate, hlen]

/-- The call-boundary gradient shape survives the whole adaptation loop. -/
theorem adapt_iter_gradOK (B : Backend) (x : Mat) (n : Nat) :
    ∀ (mo : Model × Optimizer) (ℓ : Nat → Nat),
    (∀ (v : Model) (i : Nat), (B.gradFn v x i).length = ℓ i) →
    (∀ i ∈ mo.2.paramIdxs, GradOK (rgAt mo.1 i) (ℓ i) (gradAt mo.1 i)) →
    ∀ i ∈ mo.2.paramIdxs,
      GradOK (rgAt ((adaptPair B x)^[n] mo).1 i) (ℓ i) (gradAt ((adaptPair B x)^[n] mo).1 i) := by
  induction n with
  | zero => exact fun mo ℓ _ hok => hok
  | succ k ih =>
    intro mo ℓ hℓ hok i hi
    have e1 : (adaptPair B x)^[k + 1] mo = (adaptPair B x)^[k] (adaptPair B x mo) :=
      Function.iterate_succ_apply ..
    rw [e1]
    refine ih (adaptPair B x mo) ℓ hℓ (fun j hj => ?_) i hi
    exact adapt_step_gradOK B x mo.1 mo.2 ℓ hℓ j hj (hok j hj)

/-! ### Restoring a snapshot: what `load_state_dict` does to the live model -/

theorem loadLayer_self (md : Layer) : loadLayer md md.sd = md := by
  cases md with
  | bn b =>
    by_cases h : b.affine
    · simp only [Layer.sd, loadLayer, if_pos h]
      rfl
    · simp only [Layer.sd, loadLayer, if_neg h]
  | plain ps =>
    simp only [loadLayer, Layer.sd, Layer.plain.injEq]
    induction ps with
    | nil => rfl
    | cons p pt ih => simp [Param.setData, ih]

theorem load_state_dict_self (m : Model) : m.load_state_dict m.state_dict = m := by
  show ({ m with modules := List.zipWith loadLayer m.modules (m.modules.map Layer.sd) } : Model)
      = m
  have : List.zipWith loadLayer m.modules (m.modules.map Layer.sd) = m.modules := by
    induction m.modules with
    | nil => rfl
    | cons md rest ih => simp [loadLayer_self, ih]
  rw [this]

theorem params_length_attrsM (a : Layer) : a.attrsM.params.length = a.params.length := by
  cases a with
  | bn b => by_cases h : b.affine <;> simp [Layer.attrsM, Layer.params, h]
  | plain ps => simp [Layer.attrsM, Layer.params]

theorem params_attrsOf_length (m : Model) : m.attrsOf.params.length = m.params.length := by
  show (layersParams (m.modules.map Layer.attrsM)).length = (layersParams m.modules).length
  induction m.modules with
  | nil => rfl
  | cons md rest ih =>
    simp only [List.map_cons, layersParams_cons, List.length_append, ih,
      params_length_attrsM]

theorem params_length_of_attrs (m₁ mc : Model) (h : m₁.attrsOf = mc.attrsOf) :
    m₁.params.length = mc.params.length := by
  have h1 := congrArg (fun mm => Model.params mm |>.length) h
  simpa [params_attrsOf_length] using h1

theorem attrsM_bn_parts (b₁ b : BatchNorm2d)
    (h : (Layer.bn b₁).attrsM = (Layer.bn b).attrsM) :
    b₁.affine = b.affine ∧ b₁.track_running_stats = b.track_running_stats
    ∧ (b.affine = false → b₁.weight.strip = b.weight.strip ∧ b₁.bias.strip = b.bias.strip) := by
  simp only [Layer.attrsM, Layer.bn.injEq, BatchNorm2d.mk.injEq] at h
  obtain ⟨ha, hw, hb, ht, -, -⟩ := h
  refine ⟨ha, ht, fun hfalse => ?_⟩
  have ha1 : b₁.affine = false := by rw [ha, hfalse]
  rw [ha1, hfalse] at hw hb
  simp only [Bool.false_eq_true, if_false] at hw hb
  exact ⟨hw, hb⟩

theorem loadLayer_params (a₁ a : Layer) (h : a₁.attrsM = a.attrsM) :
    (loadLayer a₁ a.sd).params
      = List.zipWith Param.setData a₁.params (a.params.map Param.data) := by
  cases a₁ with
  | bn b₁ =>
    cases a with
    | bn b =>
      obtain ⟨ha, -, -⟩ := attrsM_bn_parts b₁ b h
      by_cases haf : b.affine
      · have h1 : b₁.affine = true := by rw [ha, haf]
        simp [loadLayer, Layer.sd, Layer.params, haf, h1]
      · have h1 : b₁.affine = false := by
          rw [ha]
          exact Bool.eq_false_iff.mpr haf
        simp [loadLayer, Layer.sd, Layer.params, haf, h1]
    | plain ps => simp [Layer.attrsM] at h
  | plain ps₁ =>
    cases a with
    | bn b => simp [Layer.attrsM] at h
    | plain ps => simp [loadLayer, Layer.sd, Layer.params]

theorem zipWith_append_param (f : Param → List ℚ → Param) (a₁ a₂ : List Param)
    (b₁ b₂ : List (List ℚ)) (h : a₁.length = b₁.length) :
    List.zipWith f (a₁ ++ a₂) (b₁ ++ b₂) = List.zipWith f a₁ b₁ ++ List.zipWith f a₂ b₂ := by
  induction a₁ generalizing b₁ with
  | nil => cases b₁ with | nil => rfl | cons => simp at h
  | cons p pt ih =>
    cases b₁ with
    | nil => simp at h
    | cons d dt =>
      simp only [List.cons_append, List.zipWith_cons_cons]
      rw [ih dt (by simpa using h)]

theorem load_params_go (l₁ : List Layer) :
    ∀ (l : List Layer), l₁.map Layer.attrsM = l.map Layer.attrsM →
    layersParams (List.zipWith loadLayer l₁ (l.map Layer.sd))
      = List.zipWith Param.setData (layersParams l₁) ((layersParams l).map Param.data) := by
  induction l₁ with
  | nil =>
    intro l h
    cases l with
    | nil => rfl
    | cons a t => simp at h
  | cons a₁ t₁ ih =>
    intro l h
    cases l with
    | nil => simp at h
    | cons a t =>
      simp only [List.map_cons, List.cons.injEq] at h
      have hlen : a₁.params.length = a.params.length := by
        have h2 := congrArg (fun md => Layer.params md |>.length) h.1
        simpa [params_length_attrsM] using h2
      simp only [List.map_cons, List.zipWith_cons_cons, layersParams_cons, List.map_append]
      rw [loadLayer_params a₁ a h.1,
        zipWith_append_param Param.setData a₁.params (layersParams t₁)
          (a.params.map Param.data) ((layersParams t).map Param.data)
          (by rw [List.length_map]; exact hlen)]
      congr 1
      exact ih t h.2

theorem load_params (m₁ mc : Model) (h : m₁.attrsOf = mc.attrsOf) :
    (m₁.load_state_dict mc.state_dict).params
      = List.zipWith Param.setData m₁.params (mc.params.map Param.data) := by
  have hmods : m₁.modules.map Layer.attrsM = mc.modules.map Layer.attrsM := by
    simpa [Model.attrsOf, Model.mk.injEq] using h
  exact load_params_go m₁.modules mc.modules hmods

theorem getElem?_zipWith_setData (ps : List Param) (ds : List (List ℚ)) (i : Nat) :
    (List.zipWith Param.setData ps ds)[i]? =
      (match ps[i]?, ds[i]? with
       | some p, some d => some (p.setData d)
       | _, _ => none) := by
  induction ps generalizing ds i with
  | nil => cases ds <;> simp
  | cons p pt ih =>
    cases ds with
    | nil => simp
    | cons d dt =>
      cases i with
      | zero => simp
      | succ n => simpa using ih dt n

theorem lt_length_of_getElem?_some {l : List Param} {i : Nat} {p : Param}
    (hp : l[i]? = some p) : i < l.length := by
  by_contra hc
  rw [List.getElem?_eq_none (Nat.le_of_not_lt hc)] at hp
  exact Option.noConfusion hp

theorem rgAt_load (m₁ mc : Model) (h : m₁.attrsOf = mc.attrsOf) (i : Nat) :
    rgAt (m₁.load_state_dict mc.state_dict) i = rgAt m₁ i := by
  unfold rgAt
  rw [load_params m₁ mc h, getElem?_zipWith_setData]
  cases hp : m₁.params[i]? with
  | none => simp [hp]
  | some p =>
    have hi : i < mc.params.length := by
      rw [← params_length_of_attrs m₁ mc h]
      exact lt_length_of_getElem?_some hp
    have hq : (mc.params.map Param.data)[i]? = some mc.params[i].data := by
      rw [List.getElem?_map, List.getElem?_eq_getElem hi]
      rfl
    rw [hq]
    rfl

theorem gradAt_load (m₁ mc : Model) (h : m₁.attrsOf = mc.attrsOf) (i : Nat) :
    gradAt (m₁.load_state_dict mc.state_dict) i = gradAt m₁ i := by
  unfold gradAt
  rw [load_params m₁ mc h, getElem?_zipWith_setData]
  cases hp : m₁.params[i]? with
  | none => simp
  | some p =>
    have hi : i < mc.params.length := by
      rw [← params_length_of_attrs m₁ mc h]
      exact lt_length_of_getElem?_some hp
    have hq : (mc.params.map Param.data)[i]? = some mc.params[i].data := by
      rw [List.getElem?_map, List.getElem?_eq_getElem hi]
      rfl
    rw [hq]
    rfl

theorem strip_zip_setData (ps₁ ps : List Param) (h : ps₁.length = ps.length) :
    (List.zipWith Param.setData ps₁ (ps.map Param.data)).map Param.strip
      = ps.map Param.strip := by
  induction ps₁ generalizing ps with
  | nil => cases ps with | nil => rfl | cons => simp at h
  | cons p pt ih =>
    cases ps with
    | nil => simp at h
    | cons q qt =>
      simp only [List.map_cons, List.zipWith_cons_cons]
      rw [ih qt (by simpa using h)]
      rfl

theorem strip_loadLayer (a₁ a : Layer) (h : a₁.attrsM = a.attrsM) :
    (loadLayer a₁ a.sd).strip = a.strip := by
  cases a₁ with
  | bn b₁ =>
    cases a with
    | bn b =>
      obtain ⟨ha, ht, hs⟩ := attrsM_bn_parts b₁ b h
      by_cases haf : b.affine
      · simp only [Layer.sd, loadLayer, if_pos haf, Layer.strip, Layer.bn.injEq]
        show BatchNorm2d.mk b₁.affine (Param.strip (b₁.weight.setData b.weight.data))
            (Param.strip (b₁.bias.setData b.bias.data)) b₁.track_running_stats
            b.running_mean b.running_var = _
        rw [ha, ht]
        rfl
      · have hfalse : b.affine = false := Bool.eq_false_iff.mpr haf
        obtain ⟨hw, hb⟩ := hs hfalse
        simp only [Layer.sd, loadLayer, if_neg haf, Layer.strip, Layer.bn.injEq]
        show BatchNorm2d.mk b₁.affine b₁.weight.strip b₁.bias.strip b₁.track_running_stats
            b.running_mean b.running_var = _
        rw [ha, ht, hw, hb]
    | plain ps => simp [Layer.attrsM] at h
  | plain ps₁ =>
    cases a with
    | bn b => simp [Layer.attrsM] at h
    | plain ps =>
      have hlen : ps₁.length = ps.length := by
        simp only [Layer.attrsM, Layer.plain.injEq] at h
        have := congrArg List.length h
        simpa using this
      simp only [loadLayer, Layer.sd, Layer.strip, Layer.plain.injEq]
      exact strip_zip_setData ps₁ ps hlen

theorem strip_load_go (l₁ : List Layer) :
    ∀ (l : List Layer), l₁.map Layer.attrsM = l.map Layer.attrsM →
    (List.zipWith loadLayer l₁ (l.map Layer.sd)).map Layer.strip = l.map Layer.strip := by
  induction l₁ with
  | nil =>
    intro l h
    cases l with
    | nil => rfl
    | cons a t => simp at h
  | cons a₁ t₁ ih =>
    intro l h
    cases l with
    | nil => simp at h
    | cons a t =>
      simp only [List.map_cons, List.cons.injEq] at h
      simp only [List.map_cons, List.zipWith_cons_cons, List.cons.injEq]
      exact ⟨strip_loadLayer a₁ a h.1, ih t h.2⟩

/-- Restoring a snapshot puts the live model's forward-relevant train-mode
view back to the snapshotted model's view, whatever the live values were. -/
theorem load_view (m₁ mc : Model) (h : m₁.attrsOf = mc.attrsOf) :
    (m₁.load_state_dict mc.state_dict).train.fwdState = mc.train.fwdState := by
  have hmods : m₁.modules.map Layer.attrsM = mc.modules.map Layer.attrsM := by
    simpa [Model.attrsOf, Model.mk.injEq] using h
  show Model.mk true ((List.zipWith loadLayer m₁.modules (mc.modules.map Layer.sd)).map
      Layer.strip) = Model.mk true (mc.modules.map Layer.strip)
  rw [strip_load_go m₁.modules mc.modules hmods]

theorem attrsM_loadLayer (a₁ a : Layer) (h : a₁.attrsM = a.attrsM) :
    (loadLayer a₁ a.sd).attrsM = a₁.attrsM := by
  cases a₁ with
  | bn b₁ =>
    cases a with
    | bn b =>
      obtain ⟨ha, -, -⟩ := attrsM_bn_parts b₁ b h
      by_cases haf : b.affine
      · have h1 : b₁.affine = true := by rw [ha, haf]
        simp [loadLayer, Layer.sd, Layer.attrsM, haf, h1]
      · have h1 : b₁.affine = false := by
          rw [ha]
          exact Bool.eq_false_iff.mpr haf
        simp [loadLayer, Layer.sd, Layer.attrsM, haf, h1]
    | plain ps => simp [Layer.attrsM] at h
  | plain ps₁ =>
    cases a with
    | bn b => simp [Layer.attrsM] at h
    | plain ps =>
      have hlen : ps₁.length = ps.length := by
        simp only [Layer.attrsM, Layer.plain.injEq] at h
        have := congrArg List.length h
        simpa using this
      simp only [loadLayer, Layer.sd, Layer.attrsM, Layer.plain.injEq]
      refine map_const_of_length _ _ _ ?_
      rw [List.length_zipWith, List.length_map, ← hlen]
      exact Nat.min_self ps₁.length

theorem attrsM_load_go (l₁ : List Layer) :
    ∀ (l : List Layer), l₁.map Layer.attrsM = l.map Layer.attrsM →
    (List.zipWith loadLayer l₁ (l.map Layer.sd)).map Layer.attrsM = l₁.map Layer.attrsM := by
  induction l₁ with
  | nil =>
    intro l h
    cases l with
    | nil => rfl
    | cons a t => simp at h
  | cons a₁ t₁ ih =>
    intro l h
    cases l with
    | nil => simp at h
    | cons a t =>
      simp only [List.map_cons, List.cons.injEq] at h
      simp only [List.map_cons, List.zipWith_cons_cons, List.cons.injEq]
      exact ⟨attrsM_loadLayer a₁ a h.1, ih t h.2⟩

theorem attrs_load (m₁ mc : Model) (h : m₁.attrsOf = mc.attrsOf) :
    (m₁.load_state_dict mc.state_dict).attrsOf = m₁.attrsOf := by
  have hmods : m₁.modules.map Layer.attrsM = mc.modules.map Layer.attrsM := by
    simpa [Model.attrsOf, Model.mk.injEq] using h
  show Model.mk true ((List.zipWith loadLayer m₁.modules (mc.modules.map Layer.sd)).map
      Layer.attrsM) = Model.mk true (m₁.modules.map Layer.attrsM)
  rw [attrsM_load_go m₁.modules mc.modules hmods]

/-- One episodic inference call: every wrapper state satisfying the
invariant produces the canonical prediction (the one determined by the
snapshot and the batch) and lands in a state satisfying the invariant
again. -/
theorem episodic_call (B : Backend) (x : Mat) (m : Model) (o : Optimizer) (steps : Nat)
    (hlen : ∀ (v₁ v₂ : Model) (i : Nat), (B.gradFn v₁ x i).length = (B.gradFn v₂ x i).length)
    (hcleanm : ∀ j, gradAt m j = none)
    (b' : BNM) (hW : EpisodicInv B x m o steps b') :
    ∃ b'', BNM.forward B b' x
        = Except.ok (B.fwd ((adaptPair B x)^[steps] (m, o)).1.evalMode.fwdState x, b'')
      ∧ EpisodicInv B x m o steps b'' := by
  obtain ⟨h1, h2, h3, h4, h5, h6, h7, h8⟩ := hW
  have hoR : ({ b'.optimizer with state := o.state } : Optimizer) = o := by
    show Optimizer.mk b'.optimizer.paramIdxs o.state = o
    rw [h5]
  have hreset : b'.reset = Except.ok { b' with
      model := b'.model.load_state_dict m.state_dict, optimizer := o } := by
    unfold BNM.reset
    rw [h3, h4, ← hoR]
    rfl
  have hvR : (b'.model.load_state_dict m.state_dict).train.fwdState = m.train.fwdState :=
    load_view b'.model m h6
  have hrgR : ∀ i, rgAt (b'.model.load_state_dict m.state_dict) i = rgAt m i :=
    fun i => (rgAt_load b'.model m h6 i).trans (h7 i)
  have hgR : ∀ i ∈ o.paramIdxs,
      GradMatch (B.gradFn (b'.model.load_state_dict m.state_dict).train.fwdState x i)
        (rgAt (b'.model.load_state_dict m.state_dict) i)
        (gradAt (b'.model.load_state_dict m.state_dict) i) (gradAt m i) := by
    intro i hi
    rw [hvR, hrgR i, gradAt_load b'.model m h6 i]
    have hok := h8 i hi
    unfold GradOK at hok
    unfold GradMatch
    cases hcase : rgAt m i with
    | none =>
      rw [hcase] at hok
      rw [hok, hcleanm i]
    | some bv =>
      cases bv with
      | false =>
        rw [hcase] at hok
        rw [hok, hcleanm i]
      | true =>
        rw [hcase] at hok
        rw [hcleanm i]
        cases hok with
        | inl hnone => rw [hnone]
        | inr hzero =>
          rw [hzero]
          show accumGrad (some (List.replicate (B.gradFn m.train.fwdState x i).length 0))
              (B.gradFn m.train.fwdState x i) = accumGrad none (B.gradFn m.train.fwdState x i)
          unfold accumGrad
          exact zipWith_replicate_zero (B.gradFn m.train.fwdState x i) _ rfl
  have hsim := adapt_sim_iter B x steps o (b'.model.load_state_dict m.state_dict) m
    hvR hrgR hgR
  have hpres := adapt_iter_pres B x steps (b'.model.load_state_dict m.state_dict, o)
  refine ⟨{ b' with
      model := ((adaptPair B x)^[steps] (b'.model.load_state_dict m.state_dict, o)).1.evalMode,
      optimizer := ((adaptPair B x)^[steps] (b'.model.load_state_dict m.state_dict, o)).2 },
    ?_, ?_⟩
  · unfold BNM.forward
    rw [h2, if_pos rfl, hreset]
    show Except.ok
        ((forward_only B x (adaptLoop B x b'.steps
            (b'.model.load_state_dict m.state_dict) o).1).1,
          { b' with
            model := (forward_only B x (adaptLoop B x b'.steps
              (b'.model.load_state_dict m.state_dict) o).1).2,
            optimizer := (adaptLoop B x b'.steps
              (b'.model.load_state_dict m.state_dict) o).2 })
        = _
    rw [adaptLoop_eq_iterate, h1]
    have hout : ((adaptPair B x)^[steps]
          (b'.model.load_state_dict m.state_dict, o)).1.evalMode.fwdState
        = ((adaptPair B x)^[steps] (m, o)).1.evalMode.fwdState :=
      evalView_of_trainView _ _ hsim.2.1
    show Except.ok (B.fwd ((adaptPair B x)^[steps]
        (b'.model.load_state_dict m.state_dict, o)).1.evalMode.fwdState x, _) = _
    rw [hout, h2]
    rfl
  · refine ⟨h1, h2, h3, h4, ?_, ?_, ?_, ?_⟩
    · exact hpres.1
    · show ((adaptPair B x)^[steps]
          (b'.model.load_state_dict m.state_dict, o)).1.evalMode.attrsOf = m.attrsOf
      rw [attrs_evalMode, hpres.2.1]
      exact (attrs_load b'.model m h6).trans h6
    · intro i
      show rgAt ((adaptPair B x)^[steps]
          (b'.model.load_state_dict m.state_dict, o)).1.evalMode i = rgAt m i
      have he : rgAt ((adaptPair B x)^[steps]
          (b'.model.load_state_dict m.state_dict, o)).1.evalMode i
          = rgAt ((adaptPair B x)^[steps]
            (b'.model.load_state_dict m.state_dict, o)).1 i := rfl
      rw [he, hpres.2.2 i]
      exact hrgR i
    · intro i hi
      have hstart : ∀ j ∈ ((b'.model.load_state_dict m.state_dict, o) :
          Model × Optimizer).2.paramIdxs,
          GradOK (rgAt (b'.model.load_state_dict m.state_dict) j)
            ((B.gradFn m.train.fwdState x j).length)
            (gradAt (b'.model.load_state_dict m.state_dict) j) := by
        intro j hj
        rw [hrgR j, gradAt_load b'.model m h6 j]
        exact h8 j hj
      have hend := adapt_iter_gradOK B x steps (b'.model.load_state_dict m.state_dict, o)
        (fun j => (B.gradFn m.train.fwdState x j).length)
        (fun v j => hlen v m.train.fwdState j) hstart i hi
      rw [hpres.2.2 i, hrgR i] at hend
      exact hend

/-- C7 counterexample: a wrapper constructed episodic over a model whose
single trainable parameter carries a residual gradient from before
construction passes `BNM.__init__` (steps = 1 > 0), yet its first inference
call returns different predictions from its second call on the same batch:
`load_state_dict` does not restore `.grad`, so the residual gradient adds
into the first call's update but is gone (zeroed) by the second. -/
theorem episodic_repeat_cex :
    BNM.init mDirty oDirty 1 true = some bDirty
    ∧ outOf (BNM.forwardN BWit [[1]] bDirty 1) ≠ outOf (BNM.forwardN BWit [[1]] bDirty 0) := by
  refine ⟨rfl, ?_⟩
  have h0 : outOf (BNM.forwardN BWit [[1]] bDirty 0) = some [[(0 : ℚ) + (1 + 10)]] := rfl
  have h1 : outOf (BNM.forwardN BWit [[1]] bDirty 1) = some [[(0 : ℚ) + (0 + 10)]] := rfl
  rw [h0, h1]
  intro h
  simp only [Option.some.injEq, List.cons.injEq, and_true] at h
  norm_num at h

/-- C7 (amended): across `n + 1` consecutive episodic inference calls on the
same input batch, the returned predictions are identical — provided the
wrapped model carries no residual parameter gradients at construction time
and the autograd gradient shapes do not depend on the model state (which
holds whenever the batch and architecture fix the output shape). The state
restore before each call makes every call start from the snapshot, and the
call-boundary gradients are indistinguishable from cleared ones. -/
theorem episodic_repeatable_clean (B : Backend) (m : Model) (o : Optimizer)
    (steps : Nat) (x : Mat) (b : BNM)
    (hinit : BNM.init m o steps true = some b)
    (hclean : ∀ j, gradAt m j = none)
    (hlen : ∀ (v₁ v₂ : Model) (i : Nat), (B.gradFn v₁ x i).length = (B.gradFn v₂ x i).length) :
    ∀ n, outOf (BNM.forwardN B x b n) = outOf (BNM.forwardN B x b 0) := by
  unfold BNM.init at hinit
  by_cases hst : steps > 0
  · rw [if_pos hst] at hinit
    injection hinit with hb
    have hinv : EpisodicInv B x m o steps b := by
      rw [← hb]
      refine ⟨rfl, rfl, rfl, rfl, rfl, rfl, fun i => rfl, ?_⟩
      intro i hi
      unfold GradOK
      cases hr : rgAt m i with
      | none => exact hclean i
      | some bv =>
        cases bv with
        | false => exact hclean i
        | true => exact Or.inl (hclean i)
    have key : ∀ n, ∃ bn, BNM.forwardN B x b n
        = Except.ok (B.fwd ((adaptPair B x)^[steps] (m, o)).1.evalMode.fwdState x, bn)
        ∧ EpisodicInv B x m o steps bn := by
      intro n
      induction n with
      | zero => exact episodic_call B x m o steps hlen hclean b hinv
      | succ k ih =>
        obtain ⟨bk, hk, hik⟩ := ih
        obtain ⟨bk1, hk1, hik1⟩ := episodic_call B x m o steps hlen hclean bk hik
        refine ⟨bk1, ?_, hik1⟩
        show (match BNM.forwardN B x b k with
          | .ok p => BNM.forward B p.2 x
          | .error e => .error e) = _
        rw [hk]
        exact hk1
    intro n
    obtain ⟨bn, hn, _⟩ := key n
    obtain ⟨b0, h0, _⟩ := key 0
    rw [hn, h0]
    rfl
  · rw [if_neg hst] at hinit
    exact absurd hinit (by simp)

theorem episodic_repeatable_clean_witness :
    outOf (BNM.forwardN BWit [[1]] bClean 2) = outOf (BNM.forwardN BWit [[1]] bClean 0) :=
  episodic_repeatable_clean BWit mClean oDirty 1 [[1]] bClean rfl
    (by intro j; cases j <;> rfl) (fun v₁ v₂ i => rfl) 2

end TTA
